import Mathlib

/-!
# Verification of the AI question-generation pipeline

A shallow embedding of the question-generation service of this repository
(the serverless handler, the `AIQuestionService` orchestration pipeline, and
its pure helper functions), together with proofs of the specified
properties.

JavaScript strings are modelled as lists of Unicode code points
(`List Nat`); JavaScript numbers appearing in threshold comparisons are
modelled as rationals (`ℚ`); the 32-bit wrap-around of the cache-key hash
is modelled explicitly over `Int`.  Remote provider interactions
(generation, verification, similarity assessment) are modelled as an
environment (oracle) supplying each attempt's outcomes; the number of
oracle consultations counts provider interactions.
-/

set_option autoImplicit false


namespace IAPP

/-- Convert a Lean string literal to the code-point list model of a
JavaScript string. -/
def ofStr (s : String) : List Nat := s.data.map Char.toNat

/-! ## Character classification (fragment of the Unicode tables used by the
source's regular expressions and string methods) -/

/-- JavaScript `\s` (and the `trim` white-space set): ASCII white space,
NBSP, and the Unicode space/line separators. -/
def isWS (c : Nat) : Bool :=
  c = 9 ∨ c = 10 ∨ c = 11 ∨ c = 12 ∨ c = 13 ∨ c = 32 ∨ c = 0xA0 ∨
  c = 0x1680 ∨ (0x2000 ≤ c ∧ c ≤ 0x200A) ∨ c = 0x2028 ∨ c = 0x2029 ∨
  c = 0x202F ∨ c = 0x205F ∨ c = 0x3000 ∨ c = 0xFEFF

/-- Unicode `\p{L}` restricted to the character fragment this development
evaluates on: ASCII letters, the Latin-1 letters, and Latin Extended-A/B.
Everything else (in particular `°` U+00B0 and all punctuation) is
correctly classified as a non-letter. -/
def isLetterCp (c : Nat) : Bool :=
  (65 ≤ c ∧ c ≤ 90) ∨ (97 ≤ c ∧ c ≤ 122) ∨
  c = 0xAA ∨ c = 0xB5 ∨ c = 0xBA ∨
  (0xC0 ≤ c ∧ c ≤ 0xD6) ∨ (0xD8 ≤ c ∧ c ≤ 0xF6) ∨ (0xF8 ≤ c ∧ c ≤ 0x24F)

/-- Unicode `\p{N}` restricted to the fragment used: ASCII digits. -/
def isNumberCp (c : Nat) : Bool := 48 ≤ c ∧ c ≤ 57

/-- Models `String.prototype.toLowerCase` on the fragment used: ASCII `A..Z`, the
Latin-1 uppercase letters, and the Polish letters of Latin Extended-A.
Characters without a lower-case mapping (such as `℃` U+2103) map to
themselves. -/
def jsLowerChar (c : Nat) : List Nat :=
  if 65 ≤ c ∧ c ≤ 90 then [c + 32]
  else if 0xC0 ≤ c ∧ c ≤ 0xD6 then [c + 32]
  else if 0xD8 ≤ c ∧ c ≤ 0xDE then [c + 32]
  else if c = 0x104 ∨ c = 0x106 ∨ c = 0x118 ∨ c = 0x143 ∨ c = 0x15A ∨
          c = 0x179 ∨ c = 0x17B then [c + 1]
  else if c = 0x141 then [0x142]
  else [c]

/-- NFKD decomposition on the fragment used: ASCII is decomposition-free;
`℃` U+2103 has the compatibility decomposition `°` + `C` (U+00B0 U+0043);
the lower-case Polish diacritic letters decompose into a base letter and a
combining mark in U+0300–U+036F; `ł` U+0142 has no decomposition. -/
def nfkdChar (c : Nat) : List Nat :=
  if c = 0x2103 then [0xB0, 67]
  else if c = 0x105 then [97, 0x328]
  else if c = 0x107 then [99, 0x301]
  else if c = 0x119 then [101, 0x328]
  else if c = 0x144 then [110, 0x301]
  else if c = 0xF3 then [111, 0x301]
  else if c = 0x15B then [115, 0x301]
  else if c = 0x17A then [122, 0x301]
  else if c = 0x17C then [122, 0x307]
  else [c]

/-! ## `normalizeText` (source: `normalizeText` in the service module) -/

/-- Worker for `.replace(/\s+/g, " ")`: `inWS` records whether the
previous character belonged to a white-space run that has already emitted
its single replacement space. -/
def collapseGo (inWS : Bool) : List Nat → List Nat
  | [] => []
  | c :: rest =>
    if isWS c then
      if inWS then collapseGo true rest
      else 32 :: collapseGo true rest
    else c :: collapseGo false rest

/-- Source step `.replace(/\s+/g, " ")`: every maximal run of white space becomes a
single ASCII space. -/
def collapseWS (l : List Nat) : List Nat := collapseGo false l

/-- Left trim: drop leading white space. -/
def trimLeft (l : List Nat) : List Nat := l.dropWhile isWS

/-- Right trim: drop trailing white space. -/
def trimRight (l : List Nat) : List Nat := (l.reverse.dropWhile isWS).reverse

/-- Models `String.prototype.trim`. -/
def jsTrim (l : List Nat) : List Nat := trimRight (trimLeft l)

/-- Source step `.toLowerCase()`. -/
def jsToLowerCase (l : List Nat) : List Nat := l.flatMap jsLowerChar

/-- Source step `.replace(/ł/g, "l")`. -/
def replaceLStroke (l : List Nat) : List Nat :=
  l.map (fun c => if c = 0x142 then 108 else c)

/-- Source step `.replace(/ß/g, "ss")`. -/
def replaceSharpS (l : List Nat) : List Nat :=
  l.flatMap (fun c => if c = 0xDF then [115, 115] else [c])

/-- Source step `.normalize("NFKD")`. -/
def nfkd (l : List Nat) : List Nat := l.flatMap nfkdChar

/-- Source step `.replace(/[\u0300-\u036f]/g, "")`. -/
def stripMarks (l : List Nat) : List Nat :=
  l.filter (fun c => ¬ (0x300 ≤ c ∧ c ≤ 0x36F))

/-- Source step `.replace(/[^\p{L}\p{N}\s]/gu, " ")`. -/
def punctToSpace (l : List Nat) : List Nat :=
  l.map (fun c => if isLetterCp c ∨ isNumberCp c ∨ isWS c then c else 32)

/-- The `normalizeText` pipeline:
`toLowerCase`, `ł→l`, `ß→ss`, NFKD, strip U+0300–U+036F, replace
non-letter/number/white-space by a space, collapse white space, trim. -/
def normalizeText (input : List Nat) : List Nat :=
  jsTrim (collapseWS (punctToSpace (stripMarks (nfkd
    (replaceSharpS (replaceLStroke (jsToLowerCase input)))))))

/-- Lower-case ASCII letters and digits: the characters a normalized
ASCII text is made of besides spaces. -/
def isWordCh (c : Nat) : Bool := (97 ≤ c ∧ c ≤ 122) ∨ (48 ≤ c ∧ c ≤ 57)

/-- A well-formed word list: every word nonempty and made of word
characters.  `joinWords` of such a list is a fixed point of
normalization's collapse-and-trim stage. -/
def goodWords (ws : List (List Nat)) : Prop :=
  ∀ w ∈ ws, w ≠ [] ∧ ∀ c ∈ w, isWordCh c

/-! ## Splitting and joining on spaces -/

/-- JavaScript `s.split(" ")`: split at every single space.  On the empty
string this yields `[[]]` (JS: `"".split(" ") === [""]`). -/
def splitSp : List Nat → List (List Nat)
  | [] => [[]]
  | c :: rest =>
    if c = 32 then [] :: splitSp rest
    else
      match splitSp rest with
      | [] => [[c]]
      | w :: ws => (c :: w) :: ws

/-- Tail of `arr.join(" ")`: a space before each further element. -/
def joinRest : List (List Nat) → List Nat
  | [] => []
  | w :: ws => 32 :: (w ++ joinRest ws)

/-- JavaScript `arr.join(" ")`. -/
def joinWords : List (List Nat) → List Nat
  | [] => []
  | w :: ws => w ++ joinRest ws

/-- Worker for `jsDedup`, carrying the set of elements already seen. -/
def jsDedupGo {α : Type} [DecidableEq α] (seen : List α) : List α → List α
  | [] => []
  | x :: xs =>
    if x ∈ seen then jsDedupGo seen xs
    else x :: jsDedupGo (x :: seen) xs

/-- JavaScript `Set`-insertion order deduplication (first occurrence kept). -/
def jsDedup {α : Type} [DecidableEq α] (l : List α) : List α := jsDedupGo [] l

/-- The number of tokens of a normalized text, in the natural sense: the
empty text has no tokens. -/
def tokenCount (na : List Nat) : Nat :=
  if na = [] then 0 else (splitSp na).length

/-! ## `ngramOverlap` (source: `ngramOverlap(a, b, n = 5)`) -/

/-- The `i`-th `n`-gram of a token list: `tokens.slice(i, i + n).join(" ")`. -/
def gramAt (tokens : List (List Nat)) (n i : Nat) : List Nat :=
  joinWords ((tokens.drop i).take n)

/-- All `n`-grams of a token list, for `i = 0 .. tokens.length - n`. -/
def gramsList (tokens : List (List Nat)) (n : Nat) : List (List Nat) :=
  (List.range (tokens.length - n + 1)).map (gramAt tokens n)

/-- Source: `ngramOverlap`.  Returns
`|gramsA ∩ gramsB| / max(|gramsA|, 1)` over the deduplicated `n`-gram sets
of the two normalized texts, with the early-return guards of the source. -/
def ngramOverlap (a b : List Nat) (n : Nat) : ℚ :=
  let na := normalizeText a
  let nb := normalizeText b
  if na = [] ∨ nb = [] then 0
  else
    let tokensA := splitSp na
    let tokensB := splitSp nb
    if tokensA.length < n ∨ tokensB.length < n then 0
    else
      let gramsA := jsDedup (gramsList tokensA n)
      let gramsB := jsDedup (gramsList tokensB n)
      let intersection := (gramsA.filter (fun g => g ∈ gramsB)).length
      (intersection : ℚ) / (max gramsA.length 1 : ℚ)

/-! ## `validateChoiceIntegrity` -/

/-- One answer choice (`{label, text}`). -/
structure Choice where
  label : List Nat
  text : List Nat
deriving DecidableEq, Repr

/-- A generated candidate question.  `choices` is `none` when the field is
absent or not an array (the dynamic cases the validator guards against). -/
structure Candidate where
  language : List Nat
  article_ref : List Nat
  question : List Nat
  choices : Option (List Choice)
  correct_label : List Nat
  rationale_short : List Nat
  difficulty : Int
  tags : List (List Nat)
  needs_human_review : Bool
deriving DecidableEq, Repr

/-- Result of `validateChoiceIntegrity`: `ok` plus the failure reason. -/
structure IntegrityResult where
  ok : Bool
  reason : Option String
deriving DecidableEq, Repr

/-- Source: `validateChoiceIntegrity(question)`.  The argument is `none`
when the question object itself is missing (`!question`). -/
def validateChoiceIntegrity (question : Option Candidate) : IntegrityResult :=
  match question with
  | none => { ok := false, reason := some "choices_missing" }
  | some q =>
    match q.choices with
    | none => { ok := false, reason := some "choices_missing" }
    | some cs =>
      if cs.length ≠ 4 then { ok := false, reason := some "choices_count" }
      else
        let labels := cs.map (·.label)
        let texts := cs.map (fun c => normalizeText c.text)
        if (jsDedup labels).length ≠ 4 then
          { ok := false, reason := some "duplicate_labels" }
        else if (jsDedup texts).length ≠ 4 then
          { ok := false, reason := some "duplicate_choice_texts" }
        else if ¬ q.correct_label ∈ labels then
          { ok := false, reason := some "correct_label_not_in_choices" }
        else { ok := true, reason := none }

/-! ## Similarity gate (source: `decideSimilarityAction`) -/

/-- The three actions of the similarity gate. -/
inductive SimAction
  | accept
  | revise
  | reject
deriving DecidableEq, Repr

/-- Configurable similarity thresholds (source: `DEFAULT_CONFIG.similarity`). -/
structure SimilarityCfg where
  duplicateThreshold : ℚ
  tooFarThreshold : ℚ
  targetMin : ℚ
  targetMax : ℚ
  topK : Nat
  semanticAttempts : Nat
deriving DecidableEq, Repr

/-- The shipped default thresholds. -/
def defaultSimilarity : SimilarityCfg :=
  { duplicateThreshold := mkRat 92 100
    tooFarThreshold := mkRat 55 100
    targetMin := mkRat 65 100
    targetMax := mkRat 85 100
    topK := 5
    semanticAttempts := 3 }

/-- Outcome of the similarity gate: an action and a reason label. -/
structure SimDecision where
  action : SimAction
  reason : String
deriving DecidableEq, Repr

/-- Source: `decideSimilarityAction(maxCosine, cfg)`. -/
def decideSimilarityAction (maxCosine : ℚ) (cfg : SimilarityCfg) : SimDecision :=
  if maxCosine > cfg.duplicateThreshold then
    { action := .reject, reason := "too_similar_duplicate" }
  else if maxCosine < cfg.tooFarThreshold then
    { action := .revise, reason := "too_distant_from_bank_style" }
  else if maxCosine < cfg.targetMin ∨ maxCosine > cfg.targetMax then
    { action := .revise, reason := "outside_target_similarity_window" }
  else
    { action := .accept, reason := "within_target_similarity_window" }

/-! ## Keyword matching

The classifier regexes of the source fall into two shapes: plain substring
alternations (no anchors, `detectLanguage`) and word-bounded alternations
`\b(alt1|alt2|...)\b` (`tagParagraphTopic`, `estimateDifficulty`,
`postValidate`).  Each regex is expanded into its list of literal
alternatives (`rights?` becomes `right` and `rights`,
`pseudonymi[sz]acj` becomes its two spellings). -/

/-- Models `\w` of a non-unicode JavaScript regex: `[A-Za-z0-9_]`. -/
def isWordCp (c : Nat) : Bool :=
  (65 ≤ c ∧ c ≤ 90) ∨ (97 ≤ c ∧ c ≤ 122) ∨ (48 ≤ c ∧ c ≤ 57) ∨ c = 95

/-- The literal `pat` occurs in `s` at offset `i` with `\b` on both sides. -/
def boundedAt (s pat : List Nat) (i : Nat) : Bool :=
  (s.drop i).take pat.length = pat ∧
  (i = 0 ∨ ∀ c ∈ (s.take i).getLast?, ¬ isWordCp c) ∧
  (i + pat.length = s.length ∨ ∀ c ∈ (s.drop (i + pat.length)).head?, ¬ isWordCp c)

/-- Tests whether `\b pat \b` matches somewhere in `s`. -/
def hasBounded (s pat : List Nat) : Bool :=
  (List.range (s.length + 1)).any (boundedAt s pat)

/-- Tests whether `\b(alt1|alt2|...)\b` matches somewhere in `s`. -/
def matchesBoundedAlt (s : List Nat) (alts : List (List Nat)) : Bool :=
  alts.any (hasBounded s)

/-- The literal `pat` occurs somewhere in `s` (unanchored regex search). -/
def hasSub (s pat : List Nat) : Bool :=
  (List.range (s.length + 1)).any (fun i => (s.drop i).take pat.length = pat)

/-- Plain (unanchored) alternation: some alternative is a substring. -/
def matchesSubAlt (s : List Nat) (alts : List (List Nat)) : Bool :=
  alts.any (hasSub s)

/-! ## `detectLanguage` and `tagParagraphTopic` -/

/-- The Polish marker alternatives of `detectLanguage`. -/
def polishMarkers : List (List Nat) :=
  [ofStr "ktor", ofStr "ktora", ofStr "ktore", ofStr "administrator",
   ofStr "podmiot", ofStr "danych", ofStr "przetwarzani", ofStr "zgod",
   ofStr "obowiazk", ofStr "wyjatek", ofStr "prawo"]

/-- The English marker alternatives of `detectLanguage`. -/
def englishMarkers : List (List Nat) :=
  [ofStr "which", ofStr "controller", ofStr "processor", ofStr "lawful",
   ofStr "processing", ofStr "obligation", ofStr "rights",
   ofStr "data subject", ofStr "transfer"]

/-- Source: `detectLanguage(paragraph, fallback = "pl")`. -/
def detectLanguage (paragraph : List Nat) (fallback : List Nat) : List Nat :=
  let text := normalizeText paragraph
  if text = [] then fallback
  else if matchesSubAlt text polishMarkers then ofStr "pl"
  else if matchesSubAlt text englishMarkers then ofStr "en"
  else fallback

/-- The topic rules of `tagParagraphTopic`: tag and expanded alternatives. -/
def tagRules : List (List Nat × List (List Nat)) :=
  [ (ofStr "rights",
     [ofStr "prawo", ofStr "right", ofStr "rights", ofStr "data subject",
      ofStr "sprzeciw", ofStr "dostep", ofStr "usuniecie",
      ofStr "portability", ofStr "rectification"]),
    (ofStr "obligations",
     [ofStr "obowiazk", ofStr "obligation", ofStr "controller",
      ofStr "administrator", ofStr "informacyjn", ofStr "accountability"]),
    (ofStr "definitions",
     [ofStr "definicj", ofStr "means", ofStr "oznacza", ofStr "identifiable",
      ofStr "pseudonymisacj", ofStr "pseudonymizacj"]),
    (ofStr "transfers",
     [ofStr "transfer", ofStr "third country", ofStr "panstw trzecich",
      ofStr "scc", ofStr "adequacy", ofStr "przekazywan"]),
    (ofStr "legal_basis",
     [ofStr "zgoda", ofStr "consent", ofStr "legal basis",
      ofStr "uzasadnion", ofStr "contract", ofStr "obowiazek prawny"]),
    (ofStr "security",
     [ofStr "security", ofStr "naruszen", ofStr "breach", ofStr "integrity",
      ofStr "confidentiality", ofStr "bezpieczenst"]) ]

/-- Source: `tagParagraphTopic(paragraph)`. -/
def tagParagraphTopic (paragraph : List Nat) : List (List Nat) :=
  let text := normalizeText paragraph
  let tags := (tagRules.filter (fun rule => matchesBoundedAlt text rule.2)).map (·.1)
  if tags = [] then [ofStr "general_gdpr"] else tags

/-! ## `estimateDifficulty` -/

/-- Negation/exception markers of `estimateDifficulty`. -/
def negationMarkers : List (List Nat) :=
  [ofStr "not", ofStr "except", ofStr "nie", ofStr "z wyjatkiem",
   ofStr "ktore z ponizszych nie"]

/-- Scenario/role markers of `estimateDifficulty`. -/
def scenarioMarkers : List (List Nat) :=
  [ofStr "scenario", ofStr "przypadek", ofStr "sytuacja",
   ofStr "administrator", ofStr "podmiot"]

/-- Source: `estimateDifficulty(questionText, choices)`. -/
def estimateDifficulty (questionText : List Nat) (choices : Option (List Choice)) : Int :=
  let text := questionText ++ [32] ++ joinWords ((choices.getD []).map (·.text))
  let normalized := normalizeText text
  let len := normalized.length
  let score : Int := 1 + (if len > 180 then 1 else 0) + (if len > 320 then 1 else 0)
      + (if matchesBoundedAlt normalized negationMarkers then 1 else 0)
      + (if matchesBoundedAlt normalized scenarioMarkers then 1 else 0)
  min score 5

/-! ## Cache key (source: `hashInput`)

`JSON.stringify` of the object `(paragraph, detectedLanguage, articleRef,
paragraphTags)` is folded into a signed 32-bit integer:
`hash = (hash << 5) - hash + charCode; hash |= 0`. -/

/-- Models `ToInt32`: wrap an integer into `[-2^31, 2^31)`. -/
def toInt32 (n : Int) : Int := (n + 2 ^ 31) % 2 ^ 32 - 2 ^ 31

/-- One step of the hash fold.  In JavaScript `hash << 5` already wraps to
a signed 32-bit value before `- hash + c` is computed exactly and then
wrapped again by `|= 0`. -/
def hashStep (hash : Int) (c : Nat) : Int :=
  toInt32 (toInt32 (hash * 32) - hash + c)

/-- Source: `hashInput` minus the final `String(hash)` (the decimal
rendering is injective on integers, so keys are modelled by the integer). -/
def hashInput (raw : List Nat) : Int := raw.foldl hashStep 0

/-- Models `JSON.stringify` escaping of one character inside a string literal. -/
def jsonEscapeChar (c : Nat) : List Nat :=
  if c = 34 then [92, 34]
  else if c = 92 then [92, 92]
  else if c = 8 then [92, 98]
  else if c = 9 then [92, 116]
  else if c = 10 then [92, 110]
  else if c = 12 then [92, 102]
  else if c = 13 then [92, 114]
  else if c < 32 then
    [92, 117, 48, 48,
     (if c / 16 < 10 then 48 + c / 16 else 87 + c / 16),
     (if c % 16 < 10 then 48 + c % 16 else 87 + c % 16)]
  else [c]

/-- A JSON string literal (code 34 is `"`). -/
def jsonStr (s : List Nat) : List Nat :=
  34 :: (s.flatMap jsonEscapeChar ++ [34])

/-- A JSON array of string literals (codes 91 93 44 are `[` `]` `,`). -/
def jsonStrArray (xs : List (List Nat)) : List Nat :=
  91 :: ((List.intersperse [44] (xs.map jsonStr)).flatten ++ [93])

/-- Models `JSON.stringify({paragraph, detectedLanguage, articleRef,
paragraphTags})` with the object-literal key order (codes 123 125 58 44
are the braces, `:` and `,`). -/
def jsonOfInput (paragraph detectedLanguage articleRef : List Nat)
    (paragraphTags : List (List Nat)) : List Nat :=
  123 :: (jsonStr (ofStr "paragraph") ++ [58] ++ jsonStr paragraph ++ [44]
    ++ jsonStr (ofStr "detectedLanguage") ++ [58] ++ jsonStr detectedLanguage ++ [44]
    ++ jsonStr (ofStr "articleRef") ++ [58] ++ jsonStr articleRef ++ [44]
    ++ jsonStr (ofStr "paragraphTags") ++ [58] ++ jsonStrArray paragraphTags
    ++ [125])

/-! ## `withRetry` (source: `withRetry(fn, retryConfig)`)

`fn` is modelled as a map from the attempt number (1-based) to that call's
outcome; `jitter` is an oracle for `Math.floor(Math.random() * 120)`.
The model returns the overall outcome, the number of calls made, and the
list of back-off delays slept. -/

/-- A thrown provider error: optional HTTP `status` and the dynamic
`retryable` flag (`false` models an absent/falsy field). -/
structure JsError where
  status : Option Nat
  retryable : Bool
  message : String
deriving DecidableEq, Repr

/-- Retry configuration (source: `DEFAULT_CONFIG.retry`). -/
structure RetryCfg where
  maxAttempts : Nat
  baseDelayMs : Nat
deriving DecidableEq, Repr

/-- The shipped default retry configuration. -/
def defaultRetry : RetryCfg := { maxAttempts := 4, baseDelayMs := 300 }

/-- Source condition `status === 429 || status === 503 || error?.retryable`. -/
def retryableErr (e : JsError) : Bool :=
  e.status = some 429 ∨ e.status = some 503 ∨ e.retryable

/-- The retry loop from attempt number `attempt` onward; `remaining` is
the number of retries still allowed after this call
(`maxAttempts - attempt`), so `remaining = 0` means
`attempt === maxAttempts` and a failure breaks out of the loop.  Returns
`(outcome, calls, delays)`; the `error` payload of the outcome is the
error thrown after the loop. -/
def withRetryGo {α : Type} (fn : Nat → Except JsError α) (baseDelayMs : Nat)
    (jitter : Nat → Nat) :
    Nat → Nat → Except (Option JsError) α × Nat × List Nat
  | attempt, 0 =>
    match fn attempt with
    | .ok v => (.ok v, 1, [])
    | .error e => (.error (some e), 1, [])
  | attempt, remaining + 1 =>
    match fn attempt with
    | .ok v => (.ok v, 1, [])
    | .error e =>
      if retryableErr e then
        let delay := baseDelayMs * 2 ^ (attempt - 1) + jitter attempt
        let rest := withRetryGo fn baseDelayMs jitter (attempt + 1) remaining
        (rest.1, rest.2.1 + 1, delay :: rest.2.2)
      else (.error (some e), 1, [])

/-- Source: `withRetry(fn, retryConfig)`.  With `maxAttempts = 0` the
loop body never runs and the initial `undefined` (`none`) is thrown. -/
def withRetry {α : Type} (fn : Nat → Except JsError α) (cfg : RetryCfg)
    (jitter : Nat → Nat) : Except (Option JsError) α × Nat × List Nat :=
  match cfg.maxAttempts with
  | 0 => (.error none, 0, [])
  | m + 1 => withRetryGo fn cfg.baseDelayMs jitter 1 m

/-! ## The orchestration pipeline (source: `AIQuestionService.generateFromParagraph`)

The three remote interactions of one attempt — `generateCandidate`,
`verifyCandidate` and `assessSimilarity`, each wrapped in `withRetry` by
the source — are modelled by an environment assigning each attempt index
its three outcomes.  Everything in between (`postValidate`, the loop, the
cache) is modelled from the source.  Each consumed outcome counts as one
provider interaction. -/

/-- Verifier output (source: `verifierSchema`). -/
structure Verification where
  ok : Bool
  issues : List (List Nat)
  needs_human_review : Bool
deriving DecidableEq, Repr

/-- Similarity assessment outcome (action and reason; the cosine details
are irrelevant to the orchestration loop). -/
structure Similarity where
  action : SimAction
  reason : String
deriving DecidableEq, Repr

instance {ε α : Type} [DecidableEq ε] [DecidableEq α] : DecidableEq (Except ε α) :=
  fun x y =>
    match x, y with
    | .ok a, .ok b => decidable_of_iff (a = b) (by simp)
    | .error a, .error b => decidable_of_iff (a = b) (by simp)
    | .ok _, .error _ => isFalse (by simp)
    | .error _, .ok _ => isFalse (by simp)

/-- The provider-visible outcomes of one pipeline attempt: the result of
each `withRetry`-wrapped remote step (`error` models a thrown error). -/
structure AttemptEnv where
  gen : Except String Candidate
  verify : Except String Verification
  sim : Except String Similarity
deriving DecidableEq, Repr

/-- The pipeline's error taxonomy (the distinct `throw` sites). -/
inductive PErr
  | provider (message : String)
  | integrity (reason : String)
  | overlapTooHigh
  | difficultyTooLow
  | tooLexical
  | verificationFailed
  | similarityRejected (reason : String)
  | similarityRevise (reason : String)
  | noAttempts
deriving DecidableEq, Repr

/-- A finished `Result` (`{...validated, verification, overlap_score,
similarity}`). -/
structure ResultR where
  candidate : Candidate
  verification : Verification
  overlap_score : ℚ
  similarity : Similarity
deriving DecidableEq, Repr

/-- The shared cache: an association list keyed by the input hash
(`Map.set` prepends, `Map.get` takes the most recent binding). -/
abbrev Cache : Type := List (Int × ResultR)

/-- Models `cache.get(key)` and `cache.has(key)`. -/
def cacheLookup (cache : Cache) (key : Int) : Option ResultR :=
  match cache with
  | [] => none
  | (k, r) :: rest => if k = key then some r else cacheLookup rest key

/-- Source: `postValidate(candidate, paragraph, paragraphTags)`. -/
def postValidate (candidate : Candidate) (paragraph : List Nat)
    (paragraphTags : List (List Nat)) : Except PErr Candidate :=
  let integrity := validateChoiceIntegrity (some candidate)
  if integrity.ok = false then
    .error (.integrity ((integrity.reason).getD ""))
  else
    let overlap := ngramOverlap paragraph candidate.question 5
    if overlap > mkRat 25 100 then .error .overlapTooHigh
    else
      let heuristicDifficulty := estimateDifficulty candidate.question candidate.choices
      if heuristicDifficulty < 2 ∨ candidate.difficulty < 2 then
        .error .difficultyTooLow
      else
        let normalizedQuestion := normalizeText candidate.question
        if matchesBoundedAlt normalizedQuestion
            [ofStr "co oznacza", ofStr "jaki wyraz", ofStr "ktore slowo"] then
          .error .tooLexical
        else
          .ok { candidate with tags := jsDedup (candidate.tags ++ paragraphTags) }

/-- The body of one iteration of the attempt loop (the `try` block up to
the similarity decision), returning the built result or the thrown error,
together with the number of provider interactions consumed. -/
def runAttempt (env : AttemptEnv) (paragraph : List Nat)
    (paragraphTags : List (List Nat)) : Except PErr ResultR × Nat :=
  match env.gen with
  | .error m => (.error (.provider m), 1)
  | .ok generated =>
    match postValidate generated paragraph paragraphTags with
    | .error e => (.error e, 1)
    | .ok validated =>
      match env.verify with
      | .error m => (.error (.provider m), 2)
      | .ok verified =>
        if verified.ok = false then (.error .verificationFailed, 2)
        else
          match env.sim with
          | .error m => (.error (.provider m), 3)
          | .ok similarity =>
            (.ok { candidate := validated
                   verification := verified
                   overlap_score := ngramOverlap paragraph validated.question 5
                   similarity := similarity }, 3)

/-- The `for (let i = 0; i < semanticAttempts; i += 1)` loop.  `attemptsLeft`
counts the remaining iterations, `i` is the current attempt index.  In the
source every thrown error of the `try` block — including the
`Similarity rejected` error — is caught by the attempt's own `catch`,
stored in `lastError`, and the loop continues. -/
def genLoop (envs : Nat → AttemptEnv) (paragraph : List Nat)
    (paragraphTags : List (List Nat)) (cacheKey : Int) :
    Nat → Nat → Option PErr → Cache → Nat →
    Except (Option PErr) ResultR × Cache × Nat
  | _, 0, lastError, cache, calls => (.error lastError, cache, calls)
  | i, attemptsLeft + 1, _lastError, cache, calls =>
    let step := runAttempt (envs i) paragraph paragraphTags
    match step.1 with
    | .ok result =>
      if result.similarity.action = .accept then
        (.ok result, (cacheKey, result) :: cache, calls + step.2)
      else if result.similarity.action = .reject then
        genLoop envs paragraph paragraphTags cacheKey (i + 1) attemptsLeft
          (some (.similarityRejected result.similarity.reason)) cache (calls + step.2)
      else
        genLoop envs paragraph paragraphTags cacheKey (i + 1) attemptsLeft
          (some (.similarityRevise result.similarity.reason)) cache (calls + step.2)
    | .error e =>
      genLoop envs paragraph paragraphTags cacheKey (i + 1) attemptsLeft
        (some e) cache (calls + step.2)

/-- Source: `generateFromParagraph({paragraph, language, articleRef,
existingQuestions})`.  Returns the outcome, the cache afterwards, and the
number of provider interactions.  `semanticAttempts` is
`config.similarity.semanticAttempts` (default 3). -/
def generateFromParagraph (envs : Nat → AttemptEnv) (cache : Cache)
    (paragraph language articleRef : List Nat)
    (semanticAttempts : Nat) : Except PErr ResultR × Cache × Nat :=
  let detectedLanguage := detectLanguage paragraph language
  let paragraphTags := tagParagraphTopic paragraph
  let cacheKey := hashInput (jsonOfInput paragraph detectedLanguage articleRef paragraphTags)
  match cacheLookup cache cacheKey with
  | some r => (.ok r, cache, 0)
  | none =>
    match genLoop envs paragraph paragraphTags cacheKey 0 semanticAttempts none cache 0 with
    | (.ok r, cache', calls) => (.ok r, cache', calls)
    | (.error lastError, cache', calls) => (.error (lastError.getD .noAttempts), cache', calls)

/-! ## The serverless handler (source: `handler(req)`) -/

/-- A dynamic JSON value in a request body field. -/
inductive JsVal
  | vstr (s : List Nat)
  | vnum (q : ℚ)
  | vbool (b : Bool)
  | vnull
deriving DecidableEq, Repr

/-- JavaScript truthiness of a `JsVal`. -/
def jsTruthy : JsVal → Bool
  | .vstr s => s ≠ []
  | .vnum q => q ≠ 0
  | .vbool b => b
  | .vnull => false

/-- The parsed request body.  `paragraph` is kept dynamic (the handler
checks both truthiness and `typeof`); the other fields are modelled at
the type the handler reads them at. -/
structure ReqBody where
  paragraph : Option JsVal
  language : Option (List Nat)
  article_ref : Option (List Nat)
  existing_questions : Option (List (List Nat))
deriving DecidableEq, Repr

/-- A JSON response: status, optional `error` label, optional result. -/
structure HandlerResp where
  status : Nat
  error : Option String
  result : Option ResultR
deriving DecidableEq, Repr

/-- Source expression `body.language || "pl"`. -/
def bodyLanguage (b : ReqBody) : List Nat :=
  match b.language with
  | some l => if l = [] then ofStr "pl" else l
  | none => ofStr "pl"

/-- Source expression `body.article_ref || ""`. -/
def bodyArticleRef (b : ReqBody) : List Nat := (b.article_ref).getD []

/-- The paragraph field as the handler reads it (`body?.paragraph`). -/
def bodyParagraph (body : Option ReqBody) : Option JsVal :=
  match body with
  | none => none
  | some b => b.paragraph

/-- Source: the `handler` of the generation endpoint.  `body = none`
models a request whose JSON failed to parse (or a null body); `apiKey`
is `process.env.OPENAI_API_KEY` (`none` = absent, `[]` = empty string —
both falsy). -/
def handler (method : String) (body : Option ReqBody)
    (apiKey : Option (List Nat)) (envs : Nat → AttemptEnv) (cache : Cache) :
    HandlerResp × Cache :=
  if method ≠ "POST" then
    ({ status := 405, error := some "method_not_allowed", result := none }, cache)
  else
    match bodyParagraph body with
    | some (.vstr s) =>
      if s = [] then
        ({ status := 400, error := some "paragraph_required", result := none }, cache)
      else if apiKey = none ∨ apiKey = some [] then
        ({ status := 500, error := some "missing_openai_api_key", result := none }, cache)
      else
        let b := body.getD
          { paragraph := none, language := none, article_ref := none,
            existing_questions := none }
        match generateFromParagraph envs cache s (bodyLanguage b) (bodyArticleRef b) 3 with
        | (.ok r, cache', _) =>
          ({ status := 200, error := none, result := some r }, cache')
        | (.error _, cache', _) =>
          ({ status := 422, error := some "generation_failed", result := none }, cache')
    | some _ =>
      ({ status := 400, error := some "paragraph_required", result := none }, cache)
    | none =>
      ({ status := 400, error := some "paragraph_required", result := none }, cache)

/-! ## Concrete fixtures used to instantiate the theorems -/

/-- A well-formed candidate: 4 distinct labels and texts, a valid correct
label, a short scenario-style question mentioning a controller. -/
def candOk : Candidate :=
  { language := ofStr "pl"
    article_ref := ofStr "art5"
    question := ofStr "Czy administrator moze"
    choices := some [⟨ofStr "A", ofStr "jeden"⟩, ⟨ofStr "B", ofStr "dwa"⟩,
                     ⟨ofStr "C", ofStr "trzy"⟩, ⟨ofStr "D", ofStr "cztery"⟩]
    correct_label := ofStr "A"
    rationale_short := ofStr "bo tak mowi przepis"
    difficulty := 3
    tags := [ofStr "rights"]
    needs_human_review := false }

/-- A candidate with only three choices. -/
def candThreeChoices : Candidate :=
  { candOk with choices := some [⟨ofStr "A", ofStr "jeden"⟩,
      ⟨ofStr "B", ofStr "dwa"⟩, ⟨ofStr "C", ofStr "trzy"⟩] }

/-- A candidate with a duplicated label. -/
def candDupLabel : Candidate :=
  { candOk with choices := some [⟨ofStr "A", ofStr "jeden"⟩,
      ⟨ofStr "A", ofStr "dwa"⟩, ⟨ofStr "C", ofStr "trzy"⟩,
      ⟨ofStr "D", ofStr "cztery"⟩] }

/-- A candidate whose four texts normalize to only three distinct values. -/
def candDupText : Candidate :=
  { candOk with choices := some [⟨ofStr "A", ofStr "jeden"⟩,
      ⟨ofStr "B", ofStr "JEDEN!"⟩, ⟨ofStr "C", ofStr "trzy"⟩,
      ⟨ofStr "D", ofStr "cztery"⟩] }

/-- A candidate whose `correct_label` is not a choice label. -/
def candBadCorrect : Candidate :=
  { candOk with correct_label := ofStr "E" }

/-- A candidate without a `choices` array. -/
def candNoChoices : Candidate :=
  { candOk with choices := none }

/-- A zero-jitter oracle. -/
def jitter0 : Nat → Nat := fun _ => 0

/-- A rate-limit error (HTTP 429). -/
def err429 : JsError := { status := some 429, retryable := false, message := "OpenAI error: 429" }

/-- A non-retryable client error (HTTP 400). -/
def errFatal : JsError := { status := some 400, retryable := false, message := "OpenAI error: 400" }

/-- A provider that fails with 429 twice and then succeeds. -/
def fn429 : Nat → Except JsError Nat := fun k => if k ≤ 2 then .error err429 else .ok 7

/-- A provider that always fails non-retryably. -/
def fnFatal : Nat → Except JsError Nat := fun _ => .error errFatal

/-- A provider that always fails with 429. -/
def fnAll429 : Nat → Except JsError Nat := fun _ => .error err429

/-- A passing verification. -/
def verOk : Verification := { ok := true, issues := [], needs_human_review := false }

/-- An accepting similarity assessment. -/
def simAccept : Similarity := { action := .accept, reason := "within_target_similarity_window" }

/-- A rejecting (near-duplicate) similarity assessment. -/
def simReject : Similarity := { action := .reject, reason := "too_similar_duplicate" }

/-- An environment whose every attempt generates `candOk`, verifies it,
and assesses it as `accept`. -/
def envAccept : Nat → AttemptEnv := fun _ =>
  { gen := .ok candOk, verify := .ok verOk, sim := .ok simAccept }

/-- An environment whose first attempt is assessed `reject` and whose
later attempts are assessed `accept`. -/
def envRejectThenAccept : Nat → AttemptEnv := fun i =>
  if i = 0 then { gen := .ok candOk, verify := .ok verOk, sim := .ok simReject }
  else { gen := .ok candOk, verify := .ok verOk, sim := .ok simAccept }

/-- An environment in which every provider interaction fails. -/
def envFail : Nat → AttemptEnv := fun _ =>
  { gen := .error "provider_unreachable", verify := .error "provider_unreachable",
    sim := .error "provider_unreachable" }

/-- The `Result` produced from `candOk` on paragraph `"Aa"` under an
accepting environment (the paragraph carries no topic keyword, so the
topic tag `general_gdpr` is merged into the candidate's tags). -/
def resultAccepted : ResultR :=
  { candidate := { candOk with tags := [ofStr "rights", ofStr "general_gdpr"] }
    verification := verOk
    overlap_score := 0
    similarity := simAccept }

/-- The cache key of paragraph `"Aa"` (declared language `"pl"`, empty
article reference). -/
def keyAa : Int :=
  hashInput (jsonOfInput (ofStr "Aa") (detectLanguage (ofStr "Aa") (ofStr "pl")) []
    (tagParagraphTopic (ofStr "Aa")))

/-- A request body carrying paragraph `"Aa"` and nothing else. -/
def bodyAa : ReqBody :=
  { paragraph := some (.vstr (ofStr "Aa")), language := none,
    article_ref := none, existing_questions := none }

/-- The 14 characters of the serialized cache-key input preceding the
paragraph characters (`{"paragraph":"`). -/
def jsonPreAaBB : List Nat := [123, 34, 112, 97, 114, 97, 103, 114, 97, 112, 104, 34, 58, 34]

/-- The 75 characters of the serialized cache-key input following the
paragraph characters (identical for the `"Aa"` and `"BB"` inputs: both
fall back to detected language `"pl"` and topic tag `general_gdpr`). -/
def jsonSufAaBB : List Nat := [34, 44, 34, 100, 101, 116, 101, 99, 116, 101, 100, 76, 97, 110, 103, 117, 97, 103, 101, 34, 58, 34, 112, 108, 34, 44, 34, 97, 114, 116, 105, 99, 108, 101, 82, 101, 102, 34, 58, 34, 34, 44, 34, 112, 97, 114, 97, 103, 114, 97, 112, 104, 84, 97, 103, 115, 34, 58, 91, 34, 103, 101, 110, 101, 114, 97, 108, 95, 103, 100, 112, 114, 34, 93, 125]

/-! # Theorems -/

/-- C2: with the default thresholds, `decideSimilarityAction` rejects
exactly above 0.92, accepts exactly on [0.65, 0.85], and revises in every
other case; in particular 0.95 ↦ reject, 0.50 ↦ revise, 0.75 ↦ accept,
the boundary values 0.55, 0.65, 0.85 are not rejected, and 0.92 is not
accepted. -/
theorem decideSimilarityAction_defaults_spec (x : ℚ) :
    ((decideSimilarityAction x defaultSimilarity).action = .reject ↔ x > mkRat 92 100) ∧
    ((decideSimilarityAction x defaultSimilarity).action = .accept ↔
      mkRat 65 100 ≤ x ∧ x ≤ mkRat 85 100) ∧
    ((decideSimilarityAction x defaultSimilarity).action = .revise ↔
      x ≤ mkRat 92 100 ∧ (x < mkRat 65 100 ∨ x > mkRat 85 100)) ∧
    (decideSimilarityAction (mkRat 95 100) defaultSimilarity).action = .reject ∧
    (decideSimilarityAction (mkRat 50 100) defaultSimilarity).action = .revise ∧
    (decideSimilarityAction (mkRat 75 100) defaultSimilarity).action = .accept ∧
    (decideSimilarityAction (mkRat 55 100) defaultSimilarity).action ≠ .reject ∧
    (decideSimilarityAction (mkRat 65 100) defaultSimilarity).action ≠ .reject ∧
    (decideSimilarityAction (mkRat 85 100) defaultSimilarity).action ≠ .reject ∧
    (decideSimilarityAction (mkRat 92 100) defaultSimilarity).action ≠ .accept := by
  have h5565 : (mkRat 55 100 : ℚ) < mkRat 65 100 := by decide
  have h8592 : (mkRat 85 100 : ℚ) < mkRat 92 100 := by decide
  have h6585 : (mkRat 65 100 : ℚ) < mkRat 85 100 := by decide
  refine ⟨?_, ?_, ?_, by decide, by decide, by decide, by decide, by decide, by decide, by decide⟩
  · simp only [decideSimilarityAction, defaultSimilarity]
    split_ifs with h1 h2 h3
    · exact ⟨fun _ => h1, fun _ => rfl⟩
    · exact ⟨(fun h => nomatch h), fun hp => absurd hp h1⟩
    · exact ⟨(fun h => nomatch h), fun hp => absurd hp h1⟩
    · exact ⟨(fun h => nomatch h), fun hp => absurd hp h1⟩
  · simp only [decideSimilarityAction, defaultSimilarity]
    split_ifs with h1 h2 h3
    · exact ⟨(fun h => nomatch h), fun hp => False.elim (by linarith [hp.2])⟩
    · exact ⟨(fun h => nomatch h), fun hp => False.elim (by linarith [hp.1])⟩
    · refine ⟨(fun h => nomatch h), fun hp => False.elim ?_⟩
      rcases h3 with h | h
      · linarith [hp.1]
      · linarith [hp.2]
    · push_neg at h3
      exact ⟨fun _ => ⟨h3.1, h3.2⟩, fun _ => rfl⟩
  · simp only [decideSimilarityAction, defaultSimilarity]
    split_ifs with h1 h2 h3
    · exact ⟨(fun h => nomatch h), fun hp => False.elim (by linarith [hp.1])⟩
    · exact ⟨fun _ => ⟨le_of_not_lt h1, Or.inl (by linarith)⟩, fun _ => rfl⟩
    · exact ⟨fun _ => ⟨le_of_not_lt h1, h3⟩, fun _ => rfl⟩
    · exact ⟨(fun h => nomatch h), fun hp => absurd hp.2 h3⟩

/-! ## `jsDedup` counts distinct elements -/

/-- Membership in the dedup worker: in the input and not yet seen. -/
theorem mem_jsDedupGo {α : Type} [DecidableEq α] (a : α) :
    ∀ (l seen : List α), a ∈ jsDedupGo seen l ↔ a ∈ l ∧ a ∉ seen := by
  intro l
  induction l with
  | nil => intro seen; simp [jsDedupGo]
  | cons x xs ih =>
    intro seen
    simp only [jsDedupGo]
    split_ifs with hx
    · rw [ih]
      constructor
      · rintro ⟨h1, h2⟩; exact ⟨List.mem_cons_of_mem _ h1, h2⟩
      · rintro ⟨h1, h2⟩
        rcases List.mem_cons.mp h1 with rfl | h1
        · exact absurd hx h2
        · exact ⟨h1, h2⟩
    · simp only [List.mem_cons, ih]
      constructor
      · rintro (rfl | ⟨h1, h2⟩)
        · exact ⟨Or.inl rfl, hx⟩
        · exact ⟨Or.inr h1, fun hs => h2 (Or.inr hs)⟩
      · rintro ⟨rfl | h1, h2⟩
        · exact Or.inl rfl
        · by_cases hax : a = x
          · exact Or.inl hax
          · exact Or.inr ⟨h1, by simp [List.mem_cons, hax, h2]⟩

/-- The dedup worker never repeats an element. -/
theorem nodup_jsDedupGo {α : Type} [DecidableEq α] :
    ∀ (l seen : List α), (jsDedupGo seen l).Nodup := by
  intro l
  induction l with
  | nil => intro seen; simp [jsDedupGo]
  | cons x xs ih =>
    intro seen
    simp only [jsDedupGo]
    split_ifs with hx
    · exact ih seen
    · refine List.nodup_cons.mpr ⟨fun hmem => ?_, ih (x :: seen)⟩
      exact ((mem_jsDedupGo x xs (x :: seen)).mp hmem).2 (List.mem_cons_self x seen)

/-- Models the fact that `new Set(l).size` equals the number of distinct elements of `l`. -/
theorem jsDedup_length {α : Type} [DecidableEq α] (l : List α) :
    (jsDedup l).length = l.toFinset.card := by
  have hmem : ∀ a, a ∈ jsDedup l ↔ a ∈ l := by
    intro a
    rw [jsDedup, mem_jsDedupGo]
    simp
  have hfin : (jsDedup l).toFinset = l.toFinset := by
    ext a
    simp [List.mem_toFinset, hmem]
  calc (jsDedup l).length = (jsDedup l).toFinset.card :=
        (List.toFinset_card_of_nodup (nodup_jsDedupGo l [])).symm
    _ = l.toFinset.card := by rw [hfin]

/-- Deduplication preserves membership. -/
theorem mem_jsDedup {α : Type} [DecidableEq α] (a : α) (l : List α) :
    a ∈ jsDedup l ↔ a ∈ l := by
  rw [jsDedup, mem_jsDedupGo]; simp

/-- C5 counterexample: on a candidate whose `choices` is an array of
three elements (present but not of length 4), the validator reports
`choices_count`, not `choices_missing` as the claim states. -/
theorem validateChoiceIntegrity_three_choices_not_missing :
    (validateChoiceIntegrity (some candThreeChoices)).reason = some "choices_count" ∧
    (some "choices_count" : Option String) ≠ some "choices_missing" := by
  exact ⟨by decide, by decide⟩

/-- C5 (amended): `validateChoiceIntegrity` returns `choices_missing`
when `choices` is absent or not an array, `choices_count` when it is an
array of length ≠ 4, and — in order, for 4-element arrays —
`duplicate_labels` when fewer than 4 distinct labels,
`duplicate_choice_texts` when fewer than 4 distinct normalized texts,
`correct_label_not_in_choices` when `correct_label` is not among the
labels, and ok when all checks pass. -/
theorem validateChoiceIntegrity_checks (q : Candidate) :
    (validateChoiceIntegrity none = ⟨false, some "choices_missing"⟩) ∧
    (q.choices = none →
      validateChoiceIntegrity (some q) = ⟨false, some "choices_missing"⟩) ∧
    (∀ cs, q.choices = some cs → cs.length ≠ 4 →
      validateChoiceIntegrity (some q) = ⟨false, some "choices_count"⟩) ∧
    (∀ cs, q.choices = some cs → cs.length = 4 →
      (cs.map (·.label)).toFinset.card < 4 →
      validateChoiceIntegrity (some q) = ⟨false, some "duplicate_labels"⟩) ∧
    (∀ cs, q.choices = some cs → cs.length = 4 →
      (cs.map (·.label)).toFinset.card = 4 →
      (cs.map (fun c => normalizeText c.text)).toFinset.card < 4 →
      validateChoiceIntegrity (some q) = ⟨false, some "duplicate_choice_texts"⟩) ∧
    (∀ cs, q.choices = some cs → cs.length = 4 →
      (cs.map (·.label)).toFinset.card = 4 →
      (cs.map (fun c => normalizeText c.text)).toFinset.card = 4 →
      q.correct_label ∉ cs.map (·.label) →
      validateChoiceIntegrity (some q) = ⟨false, some "correct_label_not_in_choices"⟩) ∧
    (∀ cs, q.choices = some cs → cs.length = 4 →
      (cs.map (·.label)).toFinset.card = 4 →
      (cs.map (fun c => normalizeText c.text)).toFinset.card = 4 →
      q.correct_label ∈ cs.map (·.label) →
      validateChoiceIntegrity (some q) = ⟨true, none⟩) := by
  refine ⟨rfl, ?_, ?_, ?_, ?_, ?_, ?_⟩
  · intro h
    simp [validateChoiceIntegrity, h]
  · intro cs hcs hlen
    simp only [validateChoiceIntegrity, hcs]
    rw [if_pos hlen]
  · intro cs hcs hlen hcard
    have hlab : (jsDedup (cs.map (·.label))).length ≠ 4 := by
      rw [jsDedup_length]; omega
    simp only [validateChoiceIntegrity, hcs]
    rw [if_neg (by simp [hlen]), if_pos hlab]
  · intro cs hcs hlen hlab htext
    have hlab' : ¬ (jsDedup (cs.map (·.label))).length ≠ 4 := by
      rw [jsDedup_length]; omega
    have htext' : (jsDedup (cs.map (fun c => normalizeText c.text))).length ≠ 4 := by
      rw [jsDedup_length]; omega
    simp only [validateChoiceIntegrity, hcs]
    rw [if_neg (by simp [hlen]), if_neg hlab', if_pos htext']
  · intro cs hcs hlen hlab htext hmem
    have hlab' : ¬ (jsDedup (cs.map (·.label))).length ≠ 4 := by
      rw [jsDedup_length]; omega
    have htext' : ¬ (jsDedup (cs.map (fun c => normalizeText c.text))).length ≠ 4 := by
      rw [jsDedup_length]; omega
    simp only [validateChoiceIntegrity, hcs]
    rw [if_neg (by simp [hlen]), if_neg hlab', if_neg htext', if_pos hmem]
  · intro cs hcs hlen hlab htext hmem
    have hlab' : ¬ (jsDedup (cs.map (·.label))).length ≠ 4 := by
      rw [jsDedup_length]; omega
    have htext' : ¬ (jsDedup (cs.map (fun c => normalizeText c.text))).length ≠ 4 := by
      rw [jsDedup_length]; omega
    simp only [validateChoiceIntegrity, hcs]
    rw [if_neg (by simp [hlen]), if_neg hlab', if_neg htext',
      if_neg (not_not_intro hmem)]

/-- C5 witness: each branch of `validateChoiceIntegrity_checks`
instantiated at a concrete candidate. -/
theorem validateChoiceIntegrity_checks_witness :
    validateChoiceIntegrity (some candNoChoices) = ⟨false, some "choices_missing"⟩ ∧
    validateChoiceIntegrity (some candThreeChoices) = ⟨false, some "choices_count"⟩ ∧
    validateChoiceIntegrity (some candDupLabel) = ⟨false, some "duplicate_labels"⟩ ∧
    validateChoiceIntegrity (some candDupText) = ⟨false, some "duplicate_choice_texts"⟩ ∧
    validateChoiceIntegrity (some candBadCorrect) = ⟨false, some "correct_label_not_in_choices"⟩ ∧
    validateChoiceIntegrity (some candOk) = ⟨true, none⟩ := by
  refine ⟨?_, ?_, ?_, ?_, ?_, ?_⟩
  · exact (validateChoiceIntegrity_checks candNoChoices).2.1 (by decide)
  · exact (validateChoiceIntegrity_checks candThreeChoices).2.2.1 _ rfl (by decide)
  · exact (validateChoiceIntegrity_checks candDupLabel).2.2.2.1 _ rfl (by decide) (by decide)
  · exact (validateChoiceIntegrity_checks candDupText).2.2.2.2.1 _ rfl (by decide)
      (by decide) (by decide)
  · exact (validateChoiceIntegrity_checks candBadCorrect).2.2.2.2.2.1 _ rfl (by decide)
      (by decide) (by decide) (by decide)
  · exact (validateChoiceIntegrity_checks candOk).2.2.2.2.2.2 _ rfl (by decide)
      (by decide) (by decide) (by decide)

/-- C8: `ngramOverlap(a, a, n)` is exactly 1 when the normalized text of
`a` has at least `n ≥ 1` tokens; `ngramOverlap(a, b, n)` is 0 when the
two texts' `n`-gram sets are disjoint (in particular for disjoint
vocabularies); and `ngramOverlap(a, b, n)` is 0 when either normalized
text has fewer than `n` tokens. -/
theorem ngramOverlap_spec (a b : List Nat) (n : Nat) :
    (1 ≤ n → n ≤ tokenCount (normalizeText a) → ngramOverlap a a n = 1) ∧
    ((∀ g ∈ gramsList (splitSp (normalizeText a)) n,
        g ∉ gramsList (splitSp (normalizeText b)) n) →
      ngramOverlap a b n = 0) ∧
    (tokenCount (normalizeText a) < n ∨ tokenCount (normalizeText b) < n →
      ngramOverlap a b n = 0) := by
  refine ⟨?_, ?_, ?_⟩
  · intro hn htok
    have hne : normalizeText a ≠ [] := by
      intro h
      rw [tokenCount, if_pos h] at htok
      omega
    have htok' : n ≤ (splitSp (normalizeText a)).length := by
      rwa [tokenCount, if_neg hne] at htok
    have hfilter :
        (jsDedup (gramsList (splitSp (normalizeText a)) n)).filter
          (fun g => g ∈ jsDedup (gramsList (splitSp (normalizeText a)) n)) =
        jsDedup (gramsList (splitSp (normalizeText a)) n) :=
      List.filter_eq_self.mpr (fun g hg => decide_eq_true hg)
    have hpos : 1 ≤ (jsDedup (gramsList (splitSp (normalizeText a)) n)).length := by
      rw [jsDedup_length]
      have hne' : gramsList (splitSp (normalizeText a)) n ≠ [] := by
        rw [gramsList]
        simp only [ne_eq, List.map_eq_nil_iff, List.range_eq_nil]
        omega
      rcases List.exists_mem_of_ne_nil _ hne' with ⟨g, hg⟩
      exact Finset.card_pos.mpr ⟨g, List.mem_toFinset.mpr hg⟩
    simp only [ngramOverlap]
    rw [if_neg (by simp [hne]), if_neg (by omega), hfilter]
    have hmax : ((jsDedup (gramsList (splitSp (normalizeText a)) n)).length : ℚ) ⊔ 1 =
        ((jsDedup (gramsList (splitSp (normalizeText a)) n)).length : ℚ) :=
      max_eq_left (by exact_mod_cast hpos)
    rw [hmax]
    exact div_self (by positivity)
  · intro hdisj
    simp only [ngramOverlap]
    split_ifs with h1 h2
    · rfl
    · rfl
    · have hfe : (jsDedup (gramsList (splitSp (normalizeText a)) n)).filter
          (fun g => g ∈ jsDedup (gramsList (splitSp (normalizeText b)) n)) = [] := by
        rw [List.filter_eq_nil_iff]
        intro g hg
        have hga : g ∈ gramsList (splitSp (normalizeText a)) n :=
          (mem_jsDedup g _).mp hg
        have : g ∉ jsDedup (gramsList (splitSp (normalizeText b)) n) := by
          rw [mem_jsDedup]
          exact hdisj g hga
        simpa using this
      rw [hfe]
      simp
  · intro h
    simp only [ngramOverlap]
    split_ifs with h1 h2
    · rfl
    · rfl
    · exfalso
      apply h2
      rcases h1' : h with hl | hr
      · have : normalizeText a ≠ [] := fun he => h1 (Or.inl he)
        rw [tokenCount, if_neg this] at hl
        exact Or.inl hl
      · have : normalizeText b ≠ [] := fun he => h1 (Or.inr he)
        rw [tokenCount, if_neg this] at hr
        exact Or.inr hr

/-- C8 witness: the three parts of `ngramOverlap_spec` at concrete
inputs (a three-token text against itself with `n = 2`; two texts with
disjoint vocabularies; and a two-token text with `n = 5`). -/
theorem ngramOverlap_spec_witness :
    ngramOverlap (ofStr "jeden dwa trzy") (ofStr "jeden dwa trzy") 2 = 1 ∧
    ngramOverlap (ofStr "jeden dwa trzy") (ofStr "cztery piec szesc") 2 = 0 ∧
    ngramOverlap (ofStr "jeden dwa") (ofStr "cztery piec szesc") 5 = 0 := by
  refine ⟨?_, ?_, ?_⟩
  · exact (ngramOverlap_spec (ofStr "jeden dwa trzy") (ofStr "jeden dwa trzy") 2).1
      (by decide) (by decide)
  · exact (ngramOverlap_spec (ofStr "jeden dwa trzy") (ofStr "cztery piec szesc") 2).2.1
      (by decide)
  · exact (ngramOverlap_spec (ofStr "jeden dwa") (ofStr "cztery piec szesc") 5).2.2
      (by decide)

/-! ## `withRetry` loop lemmas -/

/-- The retry loop makes at least one call. -/
theorem withRetryGo_calls_pos {α : Type} (fn : Nat → Except JsError α)
    (base : Nat) (jitter : Nat → Nat) (attempt remaining : Nat) :
    1 ≤ (withRetryGo fn base jitter attempt remaining).2.1 := by
  cases remaining with
  | zero =>
    simp only [withRetryGo]
    cases fn attempt <;> simp
  | succ m =>
    simp only [withRetryGo]
    cases fn attempt with
    | ok v => simp
    | error e =>
      by_cases hr : retryableErr e
      · simp [hr]
      · simp [hr]

/-- The retry loop makes at most `remaining + 1` calls. -/
theorem withRetryGo_calls_le {α : Type} (fn : Nat → Except JsError α)
    (base : Nat) (jitter : Nat → Nat) :
    ∀ remaining attempt,
      (withRetryGo fn base jitter attempt remaining).2.1 ≤ remaining + 1 := by
  intro remaining
  induction remaining with
  | zero =>
    intro attempt
    simp only [withRetryGo]
    cases fn attempt <;> simp
  | succ m ih =>
    intro attempt
    have h2 := ih (attempt + 1)
    simp only [withRetryGo]
    cases fn attempt with
    | ok v => simp
    | error e =>
      by_cases hr : retryableErr e
      · simp only [hr, if_true]
        omega
      · simp [hr]

/-- The back-off delays of the retry loop: one sleep before each retried
attempt, of `base * 2 ^ (attempt - 1)` plus that attempt's jitter. -/
theorem withRetryGo_delays {α : Type} (fn : Nat → Except JsError α)
    (base : Nat) (jitter : Nat → Nat) :
    ∀ remaining attempt, 1 ≤ attempt →
      (withRetryGo fn base jitter attempt remaining).2.2 =
        (List.range ((withRetryGo fn base jitter attempt remaining).2.1 - 1)).map
          (fun i => base * 2 ^ (attempt - 1 + i) + jitter (attempt + i)) := by
  intro remaining
  induction remaining with
  | zero =>
    intro attempt _
    simp only [withRetryGo]
    cases fn attempt <;> simp
  | succ m ih =>
    intro attempt ha
    have hpos := withRetryGo_calls_pos fn base jitter (attempt + 1) m
    have hih := ih (attempt + 1) (by omega)
    simp only [withRetryGo]
    cases fn attempt with
    | ok v => simp
    | error e =>
      by_cases hr : retryableErr e
      · simp only [hr, if_true, Nat.add_sub_cancel]
        conv_rhs => rw [show (withRetryGo fn base jitter (attempt + 1) m).2.1 =
              ((withRetryGo fn base jitter (attempt + 1) m).2.1 - 1) + 1 from by omega,
          List.range_succ_eq_map]
        rw [hih, List.map_cons, List.map_map]
        refine congrArg₂ List.cons ?_ ?_
        · norm_num
        · refine List.map_congr_left ?_
          intro i hi
          simp only [Function.comp_apply]
          rw [show attempt - 1 + (i + 1) = attempt + i from by omega,
            show attempt + (i + 1) = attempt + 1 + i from by omega,
            show attempt + 1 - 1 + i = attempt + i from by omega]
      · simp [hr]

/-- When every attempt up to the budget fails with a retryable error, the
loop consumes the whole budget and throws the last error. -/
theorem withRetryGo_all_fail {α : Type} (fn : Nat → Except JsError α)
    (base : Nat) (jitter : Nat → Nat) (es : Nat → JsError) :
    ∀ remaining attempt,
      (∀ k, attempt ≤ k → k ≤ attempt + remaining →
        fn k = .error (es k) ∧ retryableErr (es k) = true) →
      (withRetryGo fn base jitter attempt remaining).1 =
          .error (some (es (attempt + remaining))) ∧
        (withRetryGo fn base jitter attempt remaining).2.1 = remaining + 1 := by
  intro remaining
  induction remaining with
  | zero =>
    intro attempt h
    have h0 := h attempt le_rfl (by omega)
    simp [withRetryGo, h0.1]
  | succ m ih =>
    intro attempt h
    have h1 := h attempt le_rfl (by omega)
    have hih := ih (attempt + 1) (fun k hk1 hk2 => h k (by omega) (by omega))
    have harg : attempt + 1 + m = attempt + (m + 1) := by omega
    simp only [withRetryGo, h1.1, h1.2, if_true]
    rw [harg] at hih
    simp [hih.1, hih.2]

/-- C4: `withRetry` calls `fn` at most `maxAttempts` times; each retry is
preceded by a sleep of `baseDelayMs * 2^(attempt-1)` plus that attempt's
jitter (each jitter below 120 ms); a non-retryable error on the first
call is rethrown after that single call; when all `maxAttempts` calls
fail retryably the last error is thrown after exactly `maxAttempts`
calls; and with the default configuration, an `fn` failing twice with
status 429 and then succeeding yields the success after exactly 3 calls,
with increasing delays `300 + jitter` and `600 + jitter`. -/
theorem withRetry_spec {α : Type} (fn : Nat → Except JsError α)
    (cfg : RetryCfg) (jitter : Nat → Nat) (hj : ∀ k, jitter k < 120) :
    ((withRetry fn cfg jitter).2.1 ≤ cfg.maxAttempts) ∧
    ((withRetry fn cfg jitter).2.2 =
      (List.range ((withRetry fn cfg jitter).2.1 - 1)).map
        (fun i => cfg.baseDelayMs * 2 ^ i + jitter (i + 1))) ∧
    (∀ d ∈ (withRetry fn cfg jitter).2.2,
      ∃ i j, j < 120 ∧ d = cfg.baseDelayMs * 2 ^ i + j) ∧
    (∀ e, 1 ≤ cfg.maxAttempts → fn 1 = .error e → retryableErr e = false →
      withRetry fn cfg jitter = (.error (some e), 1, [])) ∧
    (∀ es : Nat → JsError, 1 ≤ cfg.maxAttempts →
      (∀ k, 1 ≤ k → k ≤ cfg.maxAttempts →
        fn k = .error (es k) ∧ retryableErr (es k) = true) →
      (withRetry fn cfg jitter).1 = .error (some (es cfg.maxAttempts)) ∧
        (withRetry fn cfg jitter).2.1 = cfg.maxAttempts) ∧
    (∀ e1 e2 v, e1.status = some 429 → e2.status = some 429 →
      fn 1 = .error e1 → fn 2 = .error e2 → fn 3 = .ok v →
      withRetry fn defaultRetry jitter =
        (.ok v, 3, [300 + jitter 1, 600 + jitter 2]) ∧
        300 + jitter 1 < 600 + jitter 2) := by
  have hdelays : (withRetry fn cfg jitter).2.2 =
      (List.range ((withRetry fn cfg jitter).2.1 - 1)).map
        (fun i => cfg.baseDelayMs * 2 ^ i + jitter (i + 1)) := by
    match hM : cfg.maxAttempts with
    | 0 => simp [withRetry, hM]
    | m + 1 =>
      simp only [withRetry, hM]
      rw [withRetryGo_delays fn cfg.baseDelayMs jitter m 1 le_rfl]
      refine List.map_congr_left ?_
      intro i hi
      rw [Nat.add_comm 1 i]
      norm_num
  refine ⟨?_, hdelays, ?_, ?_, ?_, ?_⟩
  · match hM : cfg.maxAttempts with
    | 0 => simp [withRetry, hM]
    | m + 1 =>
      simp only [withRetry, hM]
      exact withRetryGo_calls_le fn cfg.baseDelayMs jitter m 1
  · intro d hd
    rw [hdelays] at hd
    rcases List.mem_map.mp hd with ⟨i, _, rfl⟩
    exact ⟨i, jitter (i + 1), hj (i + 1), rfl⟩
  · intro e hma he hr
    obtain ⟨m, hM⟩ : ∃ m, cfg.maxAttempts = m + 1 := ⟨cfg.maxAttempts - 1, by omega⟩
    simp only [withRetry, hM]
    cases m with
    | zero => simp [withRetryGo, he]
    | succ m' => simp [withRetryGo, he, hr]
  · intro es hma hall
    obtain ⟨m, hM⟩ : ∃ m, cfg.maxAttempts = m + 1 := ⟨cfg.maxAttempts - 1, by omega⟩
    have hAll := withRetryGo_all_fail fn cfg.baseDelayMs jitter es m 1
      (fun k hk1 hk2 => hall k hk1 (by omega))
    simp only [withRetry, hM]
    have harg : 1 + m = m + 1 := by omega
    rw [harg] at hAll
    exact ⟨hAll.1, hAll.2⟩
  · intro e1 e2 v hs1 hs2 he1 he2 he3
    have hr1 : retryableErr e1 = true := by simp [retryableErr, hs1]
    have hr2 : retryableErr e2 = true := by simp [retryableErr, hs2]
    refine ⟨?_, by have := hj 1; omega⟩
    simp only [withRetry, defaultRetry, withRetryGo, he1, he2, he3, hr1, hr2, if_true]
    norm_num

/-- C4 witness: `withRetry_spec` instantiated with zero jitter at a
provider failing twice with 429 and then succeeding, a provider failing
non-retryably, and a provider failing with 429 on every call. -/
theorem withRetry_spec_witness :
    (withRetry fn429 defaultRetry jitter0).2.1 ≤ defaultRetry.maxAttempts ∧
    withRetry fn429 defaultRetry jitter0 = (.ok 7, 3, [300, 600]) ∧
    withRetry fnFatal defaultRetry jitter0 = (.error (some errFatal), 1, []) ∧
    (withRetry fnAll429 defaultRetry jitter0).1 = .error (some err429) ∧
    (withRetry fnAll429 defaultRetry jitter0).2.1 = 4 := by
  have hj : ∀ k, jitter0 k < 120 := fun k => Nat.zero_lt_succ 119
  refine ⟨(withRetry_spec fn429 defaultRetry jitter0 hj).1, ?_, ?_, ?_, ?_⟩
  · exact ((withRetry_spec fn429 defaultRetry jitter0 hj).2.2.2.2.2 err429 err429 7
      rfl rfl rfl rfl rfl).1
  · exact (withRetry_spec fnFatal defaultRetry jitter0 hj).2.2.2.1 errFatal
      (by decide) rfl (by decide)
  · exact ((withRetry_spec fnAll429 defaultRetry jitter0 hj).2.2.2.2.1 (fun _ => err429)
      (by decide) (fun k h1 h2 => ⟨rfl, rfl⟩)).1
  · exact ((withRetry_spec fnAll429 defaultRetry jitter0 hj).2.2.2.2.1 (fun _ => err429)
      (by decide) (fun k h1 h2 => ⟨rfl, rfl⟩)).2

/-! ## The orchestration loop and the cache -/

/-- C1: in the source, the `Similarity rejected` error thrown on a
`reject` assessment is caught by the attempt's own `catch`, so the
pipeline does NOT terminate: with `reject` assessed on the first attempt
and `accept` on the second, the invocation runs a second full attempt
(6 provider interactions, not 3) and returns the accepted result instead
of failing.  This contradicts the specified behaviour (`reject` → abort
the whole pipeline, no further attempts). -/
theorem generateFromParagraph_reject_not_terminal :
    generateFromParagraph envRejectThenAccept [] (ofStr "Aa") (ofStr "pl") [] 3 =
      (.ok resultAccepted, [(keyAa, resultAccepted)], 6) ∧
    resultAccepted.similarity.action = .accept ∧
    (envRejectThenAccept 0).sim = .ok simReject ∧
    simReject.action = .reject := by
  refine ⟨rfl, rfl, rfl, rfl⟩

/-- A successful run of the attempt loop always writes its result to the
cache under the pipeline's key (the only successful exit is the `accept`
branch, which performs `cache.set`). -/
theorem genLoop_ok_cache (envs : Nat → AttemptEnv) (p : List Nat)
    (tags : List (List Nat)) (key : Int) (r : ResultR) :
    ∀ (n i : Nat) (lastErr : Option PErr) (cache : Cache) (calls : Nat)
      (cache2 : Cache) (c : Nat),
      genLoop envs p tags key i n lastErr cache calls = (.ok r, cache2, c) →
      cache2 = (key, r) :: cache := by
  intro n
  induction n with
  | zero =>
    intro i le cache calls cache2 c h
    simp [genLoop] at h
  | succ m ih =>
    intro i le cache calls cache2 c h
    simp only [genLoop] at h
    rcases hs : (runAttempt (envs i) p tags).1 with e | result <;> simp only [hs] at h
    · exact ih (i + 1) _ _ _ _ _ h
    · by_cases hacc : result.similarity.action = .accept
      · rw [if_pos hacc] at h
        injection h with h1 h23
        injection h23 with h2 h3
        injection h1 with h1
        rw [← h2, h1]
      · rw [if_neg hacc] at h
        by_cases hrej : result.similarity.action = .reject
        · rw [if_pos hrej] at h
          exact ih (i + 1) _ _ _ _ _ h
        · rw [if_neg hrej] at h
          exact ih (i + 1) _ _ _ _ _ h

/-- C3: when a call to `generateFromParagraph` completes successfully,
its result is cached under the input's key, and a second call with the
identical input — under ANY provider environment — returns the same
result from the cache with zero provider interactions. -/
theorem generateFromParagraph_second_call_cached
    (envs envs' : Nat → AttemptEnv) (cache : Cache)
    (p lang ar : List Nat) (nAtt : Nat) (r : ResultR) (cache' : Cache)
    (calls : Nat)
    (h : generateFromParagraph envs cache p lang ar nAtt = (.ok r, cache', calls)) :
    generateFromParagraph envs' cache' p lang ar nAtt = (.ok r, cache', 0) := by
  have hkey : cacheLookup cache'
      (hashInput (jsonOfInput p (detectLanguage p lang) ar (tagParagraphTopic p))) =
      some r := by
    rcases hc : cacheLookup cache
        (hashInput (jsonOfInput p (detectLanguage p lang) ar (tagParagraphTopic p)))
      with _ | r0
    · simp only [generateFromParagraph, hc] at h
      rcases hg : genLoop envs p (tagParagraphTopic p)
          (hashInput (jsonOfInput p (detectLanguage p lang) ar (tagParagraphTopic p)))
          0 nAtt none cache 0 with ⟨res, c2, cl⟩
      rw [hg] at h
      rcases res with le | r1
      · simp at h
      · simp only [] at h
        injection h with h1 h23
        injection h23 with h2 h3
        injection h1 with h1
        have := genLoop_ok_cache envs p (tagParagraphTopic p)
          (hashInput (jsonOfInput p (detectLanguage p lang) ar (tagParagraphTopic p)))
          r1 nAtt 0 none cache 0 c2 cl hg
        rw [← h2, this, h1]
        simp [cacheLookup]
    · simp only [generateFromParagraph, hc] at h
      injection h with h1 h23
      injection h23 with h2 h3
      injection h1 with h1
      rw [← h2, hc, h1]
  simp only [generateFromParagraph, hkey]

/-- C3 witness: a first successful call on the empty cache (3 provider
interactions), then the identical call against a failing environment
returning the cached result with 0 interactions. -/
theorem generateFromParagraph_second_call_cached_witness :
    generateFromParagraph envAccept [] (ofStr "Aa") (ofStr "pl") [] 3 =
      (.ok resultAccepted, [(keyAa, resultAccepted)], 3) ∧
    generateFromParagraph envFail [(keyAa, resultAccepted)] (ofStr "Aa") (ofStr "pl") [] 3 =
      (.ok resultAccepted, [(keyAa, resultAccepted)], 0) := by
  refine ⟨rfl, ?_⟩
  exact generateFromParagraph_second_call_cached envAccept envFail []
    (ofStr "Aa") (ofStr "pl") [] 3 resultAccepted [(keyAa, resultAccepted)] 3
    rfl

/-- One collision step: appending the characters `Aa` to any hash state
gives the same state as appending `BB` (65·31 + 97 = 66·31 + 66). -/
theorem hashStep_Aa_BB (h : Int) :
    hashStep (hashStep h 65) 97 = hashStep (hashStep h 66) 66 := by
  unfold hashStep toInt32
  omega

/-- Folding `"Aa"` and `"BB"` between any common prefix and suffix gives
the same hash. -/
theorem hashInput_Aa_BB (pre suf : List Nat) :
    hashInput (pre ++ ([65, 97] ++ suf)) = hashInput (pre ++ ([66, 66] ++ suf)) := by
  unfold hashInput
  rw [List.foldl_append, List.foldl_append, List.foldl_append, List.foldl_append]
  exact congrArg (fun h => List.foldl hashStep h suf) (hashStep_Aa_BB _)

set_option maxRecDepth 4096 in
/-- C10: the cache key is a 32-bit fold and is not injective: the two
distinct inputs with paragraphs `"Aa"` and `"BB"` (same declared
language, article reference, detected language and topic tags) receive
the same key, and after a successful run for `"Aa"`, a call for `"BB"`
hits the cache and returns — with zero provider interactions — the
result that was generated for `"Aa"`, even under an environment in which
every provider interaction fails. -/
theorem hashInput_collision_confuses_cache :
    (ofStr "Aa" : List Nat) ≠ ofStr "BB" ∧
    hashInput (jsonOfInput (ofStr "Aa") (detectLanguage (ofStr "Aa") (ofStr "pl")) []
        (tagParagraphTopic (ofStr "Aa"))) =
      hashInput (jsonOfInput (ofStr "BB") (detectLanguage (ofStr "BB") (ofStr "pl")) []
        (tagParagraphTopic (ofStr "BB"))) ∧
    generateFromParagraph envAccept [] (ofStr "Aa") (ofStr "pl") [] 3 =
      (.ok resultAccepted, [(keyAa, resultAccepted)], 3) ∧
    generateFromParagraph envFail [(keyAa, resultAccepted)] (ofStr "BB") (ofStr "pl") [] 3 =
      (.ok resultAccepted, [(keyAa, resultAccepted)], 0) := by
  have hA : jsonOfInput (ofStr "Aa") (detectLanguage (ofStr "Aa") (ofStr "pl")) []
      (tagParagraphTopic (ofStr "Aa")) = jsonPreAaBB ++ ([65, 97] ++ jsonSufAaBB) := by
    decide
  have hB : jsonOfInput (ofStr "BB") (detectLanguage (ofStr "BB") (ofStr "pl")) []
      (tagParagraphTopic (ofStr "BB")) = jsonPreAaBB ++ ([66, 66] ++ jsonSufAaBB) := by
    decide
  have hcoll : hashInput (jsonOfInput (ofStr "Aa") (detectLanguage (ofStr "Aa") (ofStr "pl")) []
      (tagParagraphTopic (ofStr "Aa"))) =
      hashInput (jsonOfInput (ofStr "BB") (detectLanguage (ofStr "BB") (ofStr "pl")) []
        (tagParagraphTopic (ofStr "BB"))) := by
    rw [hA, hB]
    exact hashInput_Aa_BB jsonPreAaBB jsonSufAaBB
  refine ⟨by decide, hcoll, rfl, ?_⟩
  have hkey : hashInput (jsonOfInput (ofStr "BB") (detectLanguage (ofStr "BB") (ofStr "pl")) []
      (tagParagraphTopic (ofStr "BB"))) = keyAa := by
    unfold keyAa
    exact hcoll.symm
  simp only [generateFromParagraph]
  rw [hkey]
  simp [cacheLookup]

/-! ## The generation endpoint handler -/

/-- C6 counterexample: on a POST request with a valid paragraph but no
API key, the handler's 500 response carries the error label
`missing_openai_api_key`, not `missing_api_key` as the claim states. -/
theorem handler_missing_key_label :
    (handler "POST" (some bodyAa) none envAccept []).1 =
      { status := 500, error := some "missing_openai_api_key", result := none } ∧
    (some "missing_openai_api_key" : Option String) ≠ some "missing_api_key" := by
  exact ⟨by decide, by decide⟩

/-- C6 (amended): the handler returns 405 `method_not_allowed` on
non-POST; 400 `paragraph_required` when the paragraph field is missing,
not a string, or the empty string; 500 `missing_openai_api_key` (not
`missing_api_key`) when the API key is absent or empty; 422
`generation_failed` when the pipeline throws; and 200 with the Result
when the pipeline succeeds. -/
theorem handler_spec (method : String) (body : Option ReqBody)
    (apiKey : Option (List Nat)) (envs : Nat → AttemptEnv) (cache : Cache) :
    (method ≠ "POST" →
      handler method body apiKey envs cache =
        ({ status := 405, error := some "method_not_allowed", result := none }, cache)) ∧
    (bodyParagraph body = none →
      handler "POST" body apiKey envs cache =
        ({ status := 400, error := some "paragraph_required", result := none }, cache)) ∧
    (∀ v, bodyParagraph body = some v → (∀ s, v ≠ .vstr s) →
      handler "POST" body apiKey envs cache =
        ({ status := 400, error := some "paragraph_required", result := none }, cache)) ∧
    (bodyParagraph body = some (.vstr []) →
      handler "POST" body apiKey envs cache =
        ({ status := 400, error := some "paragraph_required", result := none }, cache)) ∧
    (∀ s, bodyParagraph body = some (.vstr s) → s ≠ [] →
      (apiKey = none ∨ apiKey = some []) →
      handler "POST" body apiKey envs cache =
        ({ status := 500, error := some "missing_openai_api_key", result := none }, cache)) ∧
    (∀ s b, body = some b → b.paragraph = some (.vstr s) → s ≠ [] →
      ¬ (apiKey = none ∨ apiKey = some []) →
      ∀ e cache' k,
        generateFromParagraph envs cache s (bodyLanguage b) (bodyArticleRef b) 3 =
          (.error e, cache', k) →
        handler "POST" body apiKey envs cache =
          ({ status := 422, error := some "generation_failed", result := none }, cache')) ∧
    (∀ s b, body = some b → b.paragraph = some (.vstr s) → s ≠ [] →
      ¬ (apiKey = none ∨ apiKey = some []) →
      ∀ r cache' k,
        generateFromParagraph envs cache s (bodyLanguage b) (bodyArticleRef b) 3 =
          (.ok r, cache', k) →
        handler "POST" body apiKey envs cache =
          ({ status := 200, error := none, result := some r }, cache')) := by
  refine ⟨?_, ?_, ?_, ?_, ?_, ?_, ?_⟩
  · intro h
    simp only [handler]
    rw [if_pos h]
  · intro hp
    simp [handler, hp]
  · intro v hv hne
    rcases v with s | q | b2 | _
    · exact absurd rfl (hne s)
    all_goals simp [handler, hv]
  · intro hp
    simp [handler, hp]
  · intro s hs hne hkey
    simp only [handler, hs]
    rw [if_neg (by simp), if_neg hne, if_pos hkey]
  · intro s b hb hp hne hkey e cache' k hgen
    subst hb
    simp only [handler, bodyParagraph, hp, Option.getD]
    rw [if_neg (by simp), if_neg hne, if_neg hkey, hgen]
  · intro s b hb hp hne hkey r cache' k hgen
    subst hb
    simp only [handler, bodyParagraph, hp, Option.getD]
    rw [if_neg (by simp), if_neg hne, if_neg hkey, hgen]

/-- C6 witness: each branch of `handler_spec` at a concrete request. -/
theorem handler_spec_witness :
    handler "GET" (some bodyAa) none envAccept [] =
      ({ status := 405, error := some "method_not_allowed", result := none }, []) ∧
    handler "POST" none none envAccept [] =
      ({ status := 400, error := some "paragraph_required", result := none }, []) ∧
    handler "POST" (some { bodyAa with paragraph := some (.vnum 5) }) none envAccept [] =
      ({ status := 400, error := some "paragraph_required", result := none }, []) ∧
    handler "POST" (some bodyAa) none envAccept [] =
      ({ status := 500, error := some "missing_openai_api_key", result := none }, []) ∧
    handler "POST" (some bodyAa) (some (ofStr "sk")) envFail [] =
      ({ status := 422, error := some "generation_failed", result := none }, []) ∧
    handler "POST" (some bodyAa) (some (ofStr "sk")) envAccept [] =
      ({ status := 200, error := none, result := some resultAccepted },
        [(keyAa, resultAccepted)]) := by
  refine ⟨?_, ?_, ?_, ?_, ?_, ?_⟩
  · exact (handler_spec "GET" (some bodyAa) none envAccept []).1 (by decide)
  · exact (handler_spec "POST" none none envAccept []).2.1 rfl
  · exact (handler_spec "POST" (some { bodyAa with paragraph := some (.vnum 5) })
      none envAccept []).2.2.1 (.vnum 5) rfl (fun s h => nomatch h)
  · exact (handler_spec "POST" (some bodyAa) none envAccept []).2.2.2.2.1
      (ofStr "Aa") rfl (by decide) (Or.inl rfl)
  · exact (handler_spec "POST" (some bodyAa) (some (ofStr "sk")) envFail []).2.2.2.2.2.1
      (ofStr "Aa") bodyAa rfl rfl (by decide) (by decide)
      (.provider "provider_unreachable") [] 3 rfl
  · exact (handler_spec "POST" (some bodyAa) (some (ofStr "sk")) envAccept []).2.2.2.2.2.2
      (ofStr "Aa") bodyAa rfl rfl (by decide) (by decide)
      resultAccepted [(keyAa, resultAccepted)] 3 rfl

/-- C9: a POST body whose `paragraph` is the empty string is rejected
with 400 `paragraph_required`, exactly like a body with no paragraph at
all: the falsy check `!body?.paragraph` treats both identically and the
pipeline is never reached. -/
theorem handler_empty_paragraph (b : ReqBody) (apiKey : Option (List Nat))
    (envs : Nat → AttemptEnv) (cache : Cache)
    (hb : b.paragraph = some (.vstr [])) :
    handler "POST" (some b) apiKey envs cache =
      ({ status := 400, error := some "paragraph_required", result := none }, cache) ∧
    handler "POST" (some { b with paragraph := none }) apiKey envs cache =
      ({ status := 400, error := some "paragraph_required", result := none }, cache) := by
  constructor
  · simp [handler, bodyParagraph, hb]
  · simp [handler, bodyParagraph]

/-- C9 witness: the empty-paragraph request and the paragraph-less
request produce the same 400 response. -/
theorem handler_empty_paragraph_witness :
    handler "POST" (some { bodyAa with paragraph := some (.vstr []) }) none envAccept [] =
      ({ status := 400, error := some "paragraph_required", result := none }, []) ∧
    handler "POST" (some { bodyAa with paragraph := none }) none envAccept [] =
      ({ status := 400, error := some "paragraph_required", result := none }, []) := by
  exact handler_empty_paragraph { bodyAa with paragraph := some (.vstr []) }
    none envAccept [] rfl

/-! ## Idempotence of `normalizeText` on ASCII input

The proof characterizes a normalized ASCII text as `joinWords ws` for a
well-formed word list `ws` and shows every pipeline stage fixes such
strings. -/

/-- Pointwise-trivial `flatMap` is the identity. -/
theorem flatMap_id_of (f : Nat → List Nat) :
    ∀ l : List Nat, (∀ c ∈ l, f c = [c]) → l.flatMap f = l := by
  intro l
  induction l with
  | nil => intro _; rfl
  | cons x xs ih =>
    intro h
    simp only [List.flatMap_cons, h x (List.mem_cons_self x xs)]
    rw [ih (fun c hc => h c (List.mem_cons_of_mem x hc))]
    rfl

/-- Pointwise-trivial `map` is the identity. -/
theorem map_id_of (f : Nat → Nat) :
    ∀ l : List Nat, (∀ c ∈ l, f c = c) → l.map f = l := by
  intro l
  induction l with
  | nil => intro _; rfl
  | cons x xs ih =>
    intro h
    simp only [List.map_cons, h x (List.mem_cons_self x xs)]
    rw [ih (fun c hc => h c (List.mem_cons_of_mem x hc))]

/-- Word characters are not white space. -/
theorem isWordCh_not_isWS {c : Nat} (h : isWordCh c) : isWS c = false := by
  simp only [isWordCh, decide_eq_true_eq] at h
  simp only [isWS, decide_eq_false_iff_not]
  omega

/-- Word characters pass every character-level normalization stage
unchanged. -/
theorem isWordCh_stages {c : Nat} (h : isWordCh c) :
    jsLowerChar c = [c] ∧ (if c = 0x142 then 108 else c) = c ∧
    (if c = 0xDF then [115, 115] else [c]) = [c] ∧ nfkdChar c = [c] ∧
    ¬ (0x300 ≤ c ∧ c ≤ 0x36F) ∧
    (if isLetterCp c ∨ isNumberCp c ∨ isWS c then c else 32) = c := by
  simp only [isWordCh, decide_eq_true_eq] at h
  refine ⟨?_, ?_, ?_, ?_, ?_, ?_⟩
  · simp only [jsLowerChar]
    split_ifs with h1 h2 h3 h4 h5 <;> first | rfl | omega
  · split_ifs with h1 <;> omega
  · split_ifs with h1
    · omega
    · rfl
  · simp only [nfkdChar]
    split_ifs <;> first | rfl | omega
  · omega
  · have : isLetterCp c ∨ isNumberCp c ∨ isWS c := by
      rcases h with h | h
      · exact Or.inl (by simp only [isLetterCp, decide_eq_true_eq]; omega)
      · exact Or.inr (Or.inl (by simp only [isNumberCp, decide_eq_true_eq]; omega))
    rw [if_pos this]

/-- The space character passes every character-level stage unchanged. -/
theorem space_stages :
    jsLowerChar 32 = [32] ∧ (if (32 : Nat) = 0x142 then 108 else 32) = 32 ∧
    (if (32 : Nat) = 0xDF then [115, 115] else [(32 : Nat)]) = [32] ∧
    nfkdChar 32 = [32] ∧ ¬ ((0x300 : Nat) ≤ 32 ∧ (32 : Nat) ≤ 0x36F) ∧
    (if isLetterCp 32 ∨ isNumberCp 32 ∨ isWS 32 then 32 else 32) = 32 := by
  refine ⟨by decide, by decide, by decide, by decide, by decide, by decide⟩

/-- Characters of `joinRest ws` are spaces or word members. -/
theorem mem_joinRest {c : Nat} :
    ∀ ws : List (List Nat), c ∈ joinRest ws → c = 32 ∨ ∃ w ∈ ws, c ∈ w := by
  intro ws
  induction ws with
  | nil => intro h; simp [joinRest] at h
  | cons w ws ih =>
    intro h
    simp only [joinRest, List.mem_cons, List.mem_append] at h
    rcases h with h | h | h
    · exact Or.inl h
    · exact Or.inr ⟨w, List.mem_cons_self w ws, h⟩
    · rcases ih h with h | ⟨w', hw', hc⟩
      · exact Or.inl h
      · exact Or.inr ⟨w', List.mem_cons_of_mem w hw', hc⟩

/-- Characters of `joinWords ws` are spaces or word members. -/
theorem mem_joinWords {c : Nat} :
    ∀ ws : List (List Nat), c ∈ joinWords ws → c = 32 ∨ ∃ w ∈ ws, c ∈ w := by
  intro ws
  cases ws with
  | nil => intro h; simp [joinWords] at h
  | cons w ws =>
    intro h
    simp only [joinWords, List.mem_append] at h
    rcases h with h | h
    · exact Or.inr ⟨w, List.mem_cons_self w ws, h⟩
    · rcases mem_joinRest ws h with h | ⟨w', hw', hc⟩
      · exact Or.inl h
      · exact Or.inr ⟨w', List.mem_cons_of_mem w hw', hc⟩

/-- One unfolding of `collapseGo` on a cons cell. -/
theorem collapseGo_cons (b : Bool) (c : Nat) (l : List Nat) :
    collapseGo b (c :: l) =
      if isWS c then
        (if b then collapseGo true l else 32 :: collapseGo true l)
      else c :: collapseGo false l := rfl

/-- Collapsing walks over a non-white-space character with either flag. -/
theorem collapseGo_cons_of_not_ws (b : Bool) (c : Nat) (l : List Nat)
    (hc : isWS c = false) : collapseGo b (c :: l) = c :: collapseGo false l := by
  rw [collapseGo_cons, if_neg (by simp [hc])]

/-- Collapsing passes a nonempty run of non-white-space characters
through unchanged (with either flag) and continues with the flag reset. -/
theorem collapseGo_word_run (b : Bool) :
    ∀ (w t : List Nat), w ≠ [] → (∀ c ∈ w, isWS c = false) →
      collapseGo b (w ++ t) = w ++ collapseGo false t := by
  intro w
  induction w generalizing b with
  | nil => intro t hne _; exact absurd rfl hne
  | cons c w ih =>
    intro t _ hw
    have hc : isWS c = false := hw c (List.mem_cons_self c w)
    cases w with
    | nil =>
      simp only [List.cons_append, List.nil_append]
      rw [collapseGo_cons_of_not_ws b c t hc]
    | cons c' w' =>
      simp only [List.cons_append]
      rw [collapseGo_cons_of_not_ws b c (c' :: (w' ++ t)) hc]
      exact congrArg (c :: ·)
        (ih false t (by simp) (fun d hd => hw d (List.mem_cons_of_mem c hd)))

/-- Collapsing fixes the separator-prefixed tail of a well-formed word
list. -/
theorem collapseGo_joinRest :
    ∀ ws : List (List Nat), goodWords ws →
      collapseGo false (joinRest ws) = joinRest ws := by
  intro ws
  induction ws with
  | nil => intro _; rfl
  | cons w ws ih =>
    intro h
    obtain ⟨hne, hword⟩ := h w (List.mem_cons_self w ws)
    have hgood : goodWords ws := fun w' hw' => h w' (List.mem_cons_of_mem w hw')
    simp only [joinRest, collapseGo]
    rw [if_pos (by decide : isWS 32 = true)]
    simp only [Bool.false_eq_true, if_false]
    rw [collapseGo_word_run true w (joinRest ws) hne
      (fun c hc => isWordCh_not_isWS (hword c hc)), ih hgood]

/-- Collapsing fixes the join of a well-formed word list. -/
theorem collapseGo_joinWords (ws : List (List Nat)) (h : goodWords ws) :
    collapseGo false (joinWords ws) = joinWords ws := by
  cases ws with
  | nil => rfl
  | cons w ws =>
    obtain ⟨hne, hword⟩ := h w (List.mem_cons_self w ws)
    simp only [joinWords]
    rw [collapseGo_word_run false w (joinRest ws) hne
      (fun c hc => isWordCh_not_isWS (hword c hc))]
    rw [collapseGo_joinRest ws (fun w' hw' => h w' (List.mem_cons_of_mem w hw'))]

/-- The join of a nonempty well-formed word list ends in a word
character. -/
theorem joinWords_concat :
    ∀ ws : List (List Nat), goodWords ws → ws ≠ [] →
      ∃ t c, joinWords ws = t ++ [c] ∧ isWordCh c := by
  intro ws
  induction ws with
  | nil => intro _ hne; exact absurd rfl hne
  | cons w ws ih =>
    intro h _
    obtain ⟨hne, hword⟩ := h w (List.mem_cons_self w ws)
    obtain ⟨c0, t0, hw0⟩ := List.exists_cons_of_ne_nil
      (fun hrev => hne (by simpa using congrArg List.reverse hrev) : w.reverse ≠ [])
    have hwsplit : w = t0.reverse ++ [c0] := by
      have := congrArg List.reverse hw0
      simpa using this
    cases ws with
    | nil =>
      refine ⟨t0.reverse, c0, by simp [joinWords, joinRest, hwsplit], ?_⟩
      exact hword c0 (by simp [hwsplit])
    | cons w' ws' =>
      obtain ⟨t, c, htc, hc⟩ := ih (fun u hu => h u (List.mem_cons_of_mem w hu))
        (by simp)
      refine ⟨w ++ 32 :: t, c, ?_, hc⟩
      have h1 : joinWords (w :: w' :: ws') = w ++ joinRest (w' :: ws') := rfl
      have h2 : joinRest (w' :: ws') = 32 :: joinWords (w' :: ws') := rfl
      rw [h1, h2, htc]
      simp

/-- Left trim fixes the join of a well-formed word list. -/
theorem trimLeft_joinWords (ws : List (List Nat)) (h : goodWords ws) :
    trimLeft (joinWords ws) = joinWords ws := by
  cases ws with
  | nil => rfl
  | cons w ws =>
    obtain ⟨hne, hword⟩ := h w (List.mem_cons_self w ws)
    obtain ⟨c, w', rfl⟩ := List.exists_cons_of_ne_nil hne
    have hc : isWS c = false :=
      isWordCh_not_isWS (hword c (List.mem_cons_self c w'))
    simp only [joinWords, List.cons_append, trimLeft]
    rw [List.dropWhile_cons_of_neg (by simp [hc])]

/-- Right trim fixes any list ending in a non-white-space character. -/
theorem trimRight_concat_of_not_ws (t : List Nat) (c : Nat)
    (hc : isWS c = false) : trimRight (t ++ [c]) = t ++ [c] := by
  simp only [trimRight, List.reverse_append, List.reverse_cons, List.reverse_nil,
    List.nil_append, List.cons_append]
  rw [List.dropWhile_cons_of_neg (by simp [hc])]
  simp

/-- Right trim drops a trailing space. -/
theorem trimRight_append_space (t : List Nat) :
    trimRight (t ++ [32]) = trimRight t := by
  simp only [trimRight, List.reverse_append, List.reverse_cons, List.reverse_nil,
    List.nil_append, List.cons_append]
  rw [List.dropWhile_cons_of_pos (by decide)]

/-- Right trim fixes the join of a well-formed word list. -/
theorem trimRight_joinWords (ws : List (List Nat)) (h : goodWords ws) :
    trimRight (joinWords ws) = joinWords ws := by
  cases hws : ws with
  | nil => rfl
  | cons w ws' =>
    obtain ⟨t, c, htc, hc⟩ := joinWords_concat ws (hws ▸ h) (by simp [hws])
    rw [← hws, htc]
    exact trimRight_concat_of_not_ws t c (isWordCh_not_isWS hc)

/-- Trimming fixes the join of a well-formed word list. -/
theorem jsTrim_joinWords (ws : List (List Nat)) (h : goodWords ws) :
    jsTrim (joinWords ws) = joinWords ws := by
  rw [jsTrim, trimLeft_joinWords ws h, trimRight_joinWords ws h]

/-- The empty word list is well formed. -/
theorem goodWords_nil : goodWords ([] : List (List Nat)) := by
  intro w hw
  simp at hw

/-- A single one-character word is well formed. -/
theorem goodWords_singleton {c : Nat} (h : isWordCh c) : goodWords [[c]] := by
  intro w hw
  simp only [List.mem_singleton] at hw
  subst hw
  refine ⟨by simp, ?_⟩
  intro d hd
  simp only [List.mem_singleton] at hd
  subst hd
  exact h

/-- Extending the first word with a word character preserves
well-formedness. -/
theorem goodWords_cons_head {c : Nat} {w : List Nat} {ws : List (List Nat)}
    (h : isWordCh c) (hg : goodWords (w :: ws)) :
    goodWords ((c :: w) :: ws) := by
  intro u hu
  rcases List.mem_cons.mp hu with rfl | hu
  · obtain ⟨_, hword⟩ := hg w (List.mem_cons_self w ws)
    refine ⟨by simp, ?_⟩
    intro d hd
    rcases List.mem_cons.mp hd with rfl | hd
    · exact h
    · exact hword d hd
  · exact hg u (List.mem_cons_of_mem _ hu)

/-- Prepending a fresh one-character word preserves well-formedness. -/
theorem goodWords_cons_sing {c : Nat} {ws : List (List Nat)}
    (h : isWordCh c) (hg : goodWords ws) : goodWords ([c] :: ws) := by
  intro u hu
  rcases List.mem_cons.mp hu with rfl | hu
  · refine ⟨by simp, ?_⟩
    intro d hd
    simp only [List.mem_singleton] at hd
    subst hd
    exact h
  · exact hg u hu

/-- Collapsing a word-or-space string yields a well-formed word list
joined by single separators, with at most one leading space (flag
`false` only) and at most one trailing space (nonempty list only). -/
theorem collapseGo_canonical :
    ∀ l : List Nat, (∀ c ∈ l, isWordCh c ∨ isWS c) →
      ∃ ws, goodWords ws ∧
        (collapseGo true l = joinWords ws ∨
          (collapseGo true l = joinWords ws ++ [32] ∧ ws ≠ [])) ∧
        (collapseGo false l = joinWords ws ∨
          collapseGo false l = joinWords ws ++ [32] ∨
          collapseGo false l = 32 :: joinWords ws ∨
          (collapseGo false l = 32 :: (joinWords ws ++ [32]) ∧ ws ≠ [])) := by
  intro l
  induction l with
  | nil => intro _; exact ⟨[], goodWords_nil, Or.inl rfl, Or.inl rfl⟩
  | cons c rest ih =>
    intro hchar
    obtain ⟨ws, hgood, htrue, hfalse⟩ :=
      ih (fun d hd => hchar d (List.mem_cons_of_mem c hd))
    rcases hchar c (List.mem_cons_self c rest) with hw | hws
    · -- word character: both flags walk over it and reset
      have e : ∀ b, collapseGo b (c :: rest) = c :: collapseGo false rest :=
        fun b => collapseGo_cons_of_not_ws b c rest (isWordCh_not_isWS hw)
      rcases hfalse with h | h | h | ⟨h, hne⟩
      · cases ws with
        | nil =>
          refine ⟨[[c]], goodWords_singleton hw, Or.inl ?_, Or.inl ?_⟩ <;>
            (rw [e _, h]; simp [joinWords, joinRest])
        | cons w ws2 =>
          refine ⟨(c :: w) :: ws2, goodWords_cons_head hw hgood,
            Or.inl ?_, Or.inl ?_⟩ <;> (rw [e _, h]; rfl)
      · cases ws with
        | nil =>
          refine ⟨[[c]], goodWords_singleton hw,
            Or.inr ⟨?_, by simp⟩, Or.inr (Or.inl ?_)⟩ <;>
            (rw [e _, h]; simp [joinWords, joinRest])
        | cons w ws2 =>
          refine ⟨(c :: w) :: ws2, goodWords_cons_head hw hgood,
            Or.inr ⟨?_, by simp⟩, Or.inr (Or.inl ?_)⟩ <;> (rw [e _, h]; rfl)
      · cases ws with
        | nil =>
          refine ⟨[[c]], goodWords_singleton hw,
            Or.inr ⟨?_, by simp⟩, Or.inr (Or.inl ?_)⟩ <;>
            (rw [e _, h]; simp [joinWords, joinRest])
        | cons w ws2 =>
          refine ⟨[c] :: w :: ws2, goodWords_cons_sing hw hgood,
            Or.inl ?_, Or.inl ?_⟩ <;> (rw [e _, h]; rfl)
      · cases ws with
        | nil => exact absurd rfl hne
        | cons w ws2 =>
          refine ⟨[c] :: w :: ws2, goodWords_cons_sing hw hgood,
            Or.inr ⟨?_, by simp⟩, Or.inr (Or.inl ?_)⟩ <;> (rw [e _, h]; rfl)
    · -- white space: flag `true` skips it, flag `false` emits one space
      have e1 : collapseGo true (c :: rest) = collapseGo true rest := by
        simp [collapseGo_cons, hws]
      have e2 : collapseGo false (c :: rest) = 32 :: collapseGo true rest := by
        simp [collapseGo_cons, hws]
      refine ⟨ws, hgood, ?_, ?_⟩
      · rw [e1]; exact htrue
      · rw [e2]
        rcases htrue with h | ⟨h, hne⟩
        · rw [h]; exact Or.inr (Or.inr (Or.inl rfl))
        · rw [h]; exact Or.inr (Or.inr (Or.inr ⟨rfl, hne⟩))

/-- Left trim walks over a word character. -/
theorem trimLeft_cons_of_word {c : Nat} {l : List Nat} (hc : isWordCh c) :
    trimLeft (c :: l) = c :: l := by
  rw [trimLeft, List.dropWhile_cons_of_neg (by simp [isWordCh_not_isWS hc])]

/-- Left trim drops a leading space. -/
theorem trimLeft_cons_space (l : List Nat) : trimLeft (32 :: l) = trimLeft l := by
  rw [trimLeft, List.dropWhile_cons_of_pos (by decide)]
  rfl

/-- Left trim fixes the join of a well-formed word list followed by
anything. -/
theorem trimLeft_joinWords_append (ws : List (List Nat)) (h : goodWords ws)
    (hne : ws ≠ []) (t : List Nat) :
    trimLeft (joinWords ws ++ t) = joinWords ws ++ t := by
  cases ws with
  | nil => exact absurd rfl hne
  | cons w ws2 =>
    obtain ⟨hwne, hword⟩ := h w (List.mem_cons_self w ws2)
    obtain ⟨c, w', rfl⟩ := List.exists_cons_of_ne_nil hwne
    have : joinWords ((c :: w') :: ws2) ++ t = c :: (w' ++ joinRest ws2 ++ t) := by
      simp [joinWords, List.append_assoc]
    rw [this, trimLeft_cons_of_word (hword c (List.mem_cons_self c w'))]

/-- Collapsing then trimming any word-or-space string yields the join of
a well-formed word list. -/
theorem jsTrim_collapse_canonical (l : List Nat)
    (h : ∀ c ∈ l, isWordCh c ∨ isWS c) :
    ∃ ws, goodWords ws ∧ jsTrim (collapseWS l) = joinWords ws := by
  obtain ⟨ws, hgood, _, hfalse⟩ := collapseGo_canonical l h
  refine ⟨ws, hgood, ?_⟩
  rw [collapseWS]
  rcases hfalse with hf | hf | hf | ⟨hf, hne⟩ <;> rw [hf]
  · exact jsTrim_joinWords ws hgood
  · cases hws : ws with
    | nil => subst hws; decide
    | cons w ws2 =>
      subst hws
      rw [jsTrim, trimLeft_joinWords_append (w :: ws2) hgood (by simp) [32],
        trimRight_append_space, trimRight_joinWords (w :: ws2) hgood]
  · rw [jsTrim, trimLeft_cons_space, trimLeft_joinWords ws hgood,
      trimRight_joinWords ws hgood]
  · rw [jsTrim, trimLeft_cons_space,
      trimLeft_joinWords_append ws hgood hne [32],
      trimRight_append_space, trimRight_joinWords ws hgood]

/-- After lower-casing an ASCII string, every character is ASCII and not
an upper-case letter. -/
theorem jsToLowerCase_ascii (x : List Nat) (hx : ∀ c ∈ x, c < 128) :
    ∀ c ∈ jsToLowerCase x, c < 128 ∧ (c < 65 ∨ 90 < c) := by
  intro c hc
  simp only [jsToLowerCase, List.mem_flatMap] at hc
  obtain ⟨c0, hc0, hcc⟩ := hc
  have h0 := hx c0 hc0
  simp only [jsLowerChar] at hcc
  split_ifs at hcc <;> simp only [List.mem_singleton] at hcc <;> omega

/-- After the full character-level pipeline on an ASCII string, every
character is a word character or white space. -/
theorem normalize_stages_ascii (x : List Nat) (hx : ∀ c ∈ x, c < 128) :
    ∀ c ∈ punctToSpace (stripMarks (nfkd (replaceSharpS
      (replaceLStroke (jsToLowerCase x))))), isWordCh c ∨ isWS c := by
  have h1 := jsToLowerCase_ascii x hx
  have h2 : ∀ c ∈ replaceLStroke (jsToLowerCase x), c < 128 ∧ (c < 65 ∨ 90 < c) := by
    intro c hc
    simp only [replaceLStroke, List.mem_map] at hc
    obtain ⟨c0, hc0, hcc⟩ := hc
    have h0 := h1 c0 hc0
    split_ifs at hcc <;> omega
  have h3 : ∀ c ∈ replaceSharpS (replaceLStroke (jsToLowerCase x)),
      c < 128 ∧ (c < 65 ∨ 90 < c) := by
    intro c hc
    simp only [replaceSharpS, List.mem_flatMap] at hc
    obtain ⟨c0, hc0, hcc⟩ := hc
    have h0 := h2 c0 hc0
    split_ifs at hcc <;> simp at hcc <;> omega
  have h4 : ∀ c ∈ nfkd (replaceSharpS (replaceLStroke (jsToLowerCase x))),
      c < 128 ∧ (c < 65 ∨ 90 < c) := by
    intro c hc
    simp only [nfkd, List.mem_flatMap] at hc
    obtain ⟨c0, hc0, hcc⟩ := hc
    have h0 := h3 c0 hc0
    simp only [nfkdChar] at hcc
    split_ifs at hcc <;> simp at hcc <;> omega
  have h5 : ∀ c ∈ stripMarks (nfkd (replaceSharpS (replaceLStroke (jsToLowerCase x)))),
      c < 128 ∧ (c < 65 ∨ 90 < c) := by
    intro c hc
    exact h4 c (List.mem_of_mem_filter hc)
  intro c hc
  simp only [punctToSpace, List.mem_map] at hc
  obtain ⟨c0, hc0, hcc⟩ := hc
  have h0 := h5 c0 hc0
  by_cases hcl : isLetterCp c0 ∨ isNumberCp c0 ∨ isWS c0
  · rw [if_pos hcl] at hcc
    subst hcc
    rcases hcl with hl | hn | hw
    · simp only [isLetterCp, decide_eq_true_eq] at hl
      exact Or.inl (by simp only [isWordCh, decide_eq_true_eq]; omega)
    · simp only [isNumberCp, decide_eq_true_eq] at hn
      exact Or.inl (by simp only [isWordCh, decide_eq_true_eq]; omega)
    · exact Or.inr hw
  · rw [if_neg hcl] at hcc
    subst hcc
    exact Or.inr (by decide)

/-- Normalization fixes the join of a well-formed word list: every
character-level stage is the pointwise identity and the collapse and
trim stages fix it. -/
theorem normalizeText_joinWords (ws : List (List Nat)) (hgood : goodWords ws) :
    normalizeText (joinWords ws) = joinWords ws := by
  have hchar : ∀ c ∈ joinWords ws, isWordCh c ∨ c = 32 := by
    intro c hc
    rcases mem_joinWords ws hc with h | ⟨w, hw, hcw⟩
    · exact Or.inr h
    · exact Or.inl ((hgood w hw).2 c hcw)
  have hlower : jsToLowerCase (joinWords ws) = joinWords ws := by
    refine flatMap_id_of _ _ (fun c hc => ?_)
    rcases hchar c hc with h | rfl
    · exact (isWordCh_stages h).1
    · exact space_stages.1
  have hl : replaceLStroke (joinWords ws) = joinWords ws := by
    refine map_id_of _ _ (fun c hc => ?_)
    rcases hchar c hc with h | rfl
    · exact (isWordCh_stages h).2.1
    · exact space_stages.2.1
  have hss : replaceSharpS (joinWords ws) = joinWords ws := by
    refine flatMap_id_of _ _ (fun c hc => ?_)
    rcases hchar c hc with h | rfl
    · exact (isWordCh_stages h).2.2.1
    · exact space_stages.2.2.1
  have hnf : nfkd (joinWords ws) = joinWords ws := by
    refine flatMap_id_of _ _ (fun c hc => ?_)
    rcases hchar c hc with h | rfl
    · exact (isWordCh_stages h).2.2.2.1
    · exact space_stages.2.2.2.1
  have hsm : stripMarks (joinWords ws) = joinWords ws := by
    refine List.filter_eq_self.mpr (fun c hc => ?_)
    rcases hchar c hc with h | rfl
    · exact decide_eq_true (isWordCh_stages h).2.2.2.2.1
    · exact decide_eq_true space_stages.2.2.2.2.1
  have hps : punctToSpace (joinWords ws) = joinWords ws := by
    refine map_id_of _ _ (fun c hc => ?_)
    rcases hchar c hc with h | rfl
    · exact (isWordCh_stages h).2.2.2.2.2
    · exact space_stages.2.2.2.2.2
  rw [normalizeText, hlower, hl, hss, hnf, hsm, hps, collapseWS,
    collapseGo_joinWords ws hgood, jsTrim_joinWords ws hgood]

/-- A normalized ASCII string is the join of a well-formed word list. -/
theorem normalizeText_ascii_canonical (x : List Nat)
    (hx : ∀ c ∈ x, c < 128) :
    ∃ ws, goodWords ws ∧ normalizeText x = joinWords ws := by
  obtain ⟨ws, hg, he⟩ := jsTrim_collapse_canonical _ (normalize_stages_ascii x hx)
  exact ⟨ws, hg, he⟩

/-- C7 counterexample: `normalizeText` is not idempotent on arbitrary
Unicode input.  For `℃` (U+2103), lower-casing is the identity but NFKD
decomposes it to `°` + an upper-case `C`; the sign becomes a space and is
trimmed, so the first pass yields `"C"` and the second pass lower-cases
it to `"c"`. -/
theorem normalizeText_not_idempotent_celsius :
    normalizeText (normalizeText [0x2103]) ≠ normalizeText [0x2103] ∧
    normalizeText [0x2103] = [67] ∧
    normalizeText (normalizeText [0x2103]) = [99] := by
  exact ⟨by decide, by decide, by decide⟩

/-- C7 (amended): `normalizeText` is idempotent on every ASCII input (no
character-level stage can reintroduce upper-case letters there), and in
particular on the repository's own Polish test string; full-Unicode
idempotence fails only where NFKD emits upper-case letters after the
single lower-casing pass. -/
theorem normalizeText_idempotent_ascii (x : List Nat)
    (hx : ∀ c ∈ x, c < 128) :
    normalizeText (normalizeText x) = normalizeText x ∧
    normalizeText (normalizeText (ofStr "Zażółć, gęślą! jaźń.")) =
      normalizeText (ofStr "Zażółć, gęślą! jaźń.") := by
  constructor
  · obtain ⟨ws, hg, he⟩ := normalizeText_ascii_canonical x hx
    rw [he]
    exact normalizeText_joinWords ws hg
  · decide

/-- C7 witness: idempotence at a concrete ASCII string with repeated
spaces and punctuation. -/
theorem normalizeText_idempotent_ascii_witness :
    (∀ c ∈ ofStr "Data   Protection, Art. 5!", c < 128) ∧
    normalizeText (normalizeText (ofStr "Data   Protection, Art. 5!")) =
      normalizeText (ofStr "Data   Protection, Art. 5!") := by
  exact ⟨by decide, (normalizeText_idempotent_ascii _ (by decide)).1⟩

end IAPP
